import Mathlib

/-! # mt32-pi: `CControlSimpleEncoder` and the FluidSynth utility shim

A shallow embedding of

* `src/control/simpleencoder.cpp` (`ButtonMask`, `CControlSimpleEncoder::ReadGPIOPins`,
  `CControlSimpleEncoder::Update`), and
* `external/fluidsynth/src/utils/fluid_sys.c` (`fluid_set_log_function`, `fluid_log`,
  `fluid_strtok`),

followed by the properties proved about them.

Machine integers are natural numbers (or integers) with the wrap-around written out.
Classes and functions that the two files call but do not define are taken as parameters;
where a property is decided by such a class (the rotary decoder, the button debouncer),
the class is modelled from the specification and marked as such.
-/

namespace SimpleEncoder

/-! ## Fixed-width arithmetic -/

/-- Conversion to `u8`. -/
def u8 (x : Nat) : Nat := x % 2 ^ 8

/-- Conversion to `u32`. -/
def u32 (x : Nat) : Nat := x % 2 ^ 32

/-- Conversion to `s8` (two's complement wrap-around). -/
def s8 (x : Int) : Int := (x + 128) % 256 - 128

/-! ## Pin constants (simpleencoder.cpp, lines 26-35) -/

def GPIOPinButton1 : Nat := 17
def GPIOPinButton2 : Nat := 27

def GPIOPinEncoder1Button : Nat := 4
def GPIOPinEncoder1CLK : Nat := 22
def GPIOPinEncoder1DAT : Nat := 23

def GPIOPinEncoder2Button : Nat := 26
def GPIOPinEncoder2CLK : Nat := 16
def GPIOPinEncoder2DAT : Nat := 12

/-- The numeric values of the four `TButton` enumerators the file uses.  The enumeration
is declared in `control/button.h`, which is not among the sources, so the values are a
parameter of the model. -/
structure TButton where
  Button1 : Nat
  Button2 : Nat
  EncoderButton1 : Nat
  EncoderButton2 : Nat
  deriving DecidableEq

/-- The enumerators are pairwise distinct and each is a bit position of a byte. -/
def TButton.Valid (tb : TButton) : Prop :=
  tb.Button1 < 8 ∧ tb.Button2 < 8 ∧ tb.EncoderButton1 < 8 ∧ tb.EncoderButton2 < 8 ∧
  tb.Button1 ≠ tb.Button2 ∧ tb.Button1 ≠ tb.EncoderButton1 ∧ tb.Button1 ≠ tb.EncoderButton2 ∧
  tb.Button2 ≠ tb.EncoderButton1 ∧ tb.Button2 ≠ tb.EncoderButton2 ∧
  tb.EncoderButton1 ≠ tb.EncoderButton2

instance (tb : TButton) : Decidable tb.Valid := by
  unfold TButton.Valid; infer_instance

/-- `constexpr u8 ButtonMask` (lines 37-40): four `int` terms `1 << static_cast<u8>(…)`
joined by `|`, stored in a `u8`. -/
def ButtonMask (tb : TButton) : Nat :=
  u8 (1 <<< u8 tb.Button1 |||
      1 <<< u8 tb.Button2 |||
      1 <<< u8 tb.EncoderButton1 |||
      1 <<< u8 tb.EncoderButton2)

/-- The initialiser of `const u8 nButtonState` (lines 85-88) for the sampled word
`nGPIOState`: each term is a `u32` shift of one extracted bit, the disjunction is
narrowed to `u8`. -/
def nButtonState (tb : TButton) (nGPIOState : Nat) : Nat :=
  u8 (u32 (((nGPIOState >>> GPIOPinButton1) &&& 1) <<< u8 tb.Button1) |||
      u32 (((nGPIOState >>> GPIOPinButton2) &&& 1) <<< u8 tb.Button2) |||
      u32 (((nGPIOState >>> GPIOPinEncoder1Button) &&& 1) <<< u8 tb.EncoderButton1) |||
      u32 (((nGPIOState >>> GPIOPinEncoder2Button) &&& 1) <<< u8 tb.EncoderButton2))

/-- What `ReadGPIOPins` calls: the bulk read `CGPIOPin::ReadAll`, the base-class method
`DebounceButtonState` and `CRotaryEncoder::ReadGPIOPins` of the two encoder members.
None of them is defined in the sources; each is an operation on a state `σ`. -/
structure PinOps (σ : Type) where
  ReadAll : σ → Nat × σ
  DebounceButtonState : Nat → Nat → σ → σ
  Encoder1_ReadGPIOPins : Nat → Nat → σ → σ
  Encoder2_ReadGPIOPins : Nat → Nat → σ → σ

/-- `CControlSimpleEncoder::ReadGPIOPins` (lines 81-96). -/
def ReadGPIOPins {σ : Type} (tb : TButton) (ops : PinOps σ) (s : σ) : σ :=
  -- const u32 nGPIOState = CGPIOPin::ReadAll();
  let r := ops.ReadAll s
  let nGPIOState := u32 r.1
  let s := r.2
  -- DebounceButtonState(nButtonState, ButtonMask);
  let s := ops.DebounceButtonState (nButtonState tb nGPIOState) (ButtonMask tb) s
  -- m_Encoder_1.ReadGPIOPins(...); m_Encoder_2.ReadGPIOPins(...);
  let s := ops.Encoder1_ReadGPIOPins ((nGPIOState >>> GPIOPinEncoder1CLK) &&& 1)
             ((nGPIOState >>> GPIOPinEncoder1DAT) &&& 1) s
  ops.Encoder2_ReadGPIOPins ((nGPIOState >>> GPIOPinEncoder2CLK) &&& 1)
    ((nGPIOState >>> GPIOPinEncoder2DAT) &&& 1) s

/-! ### A recording interpretation of the collaborators -/

/-- One call made by `ReadGPIOPins`, with its arguments. -/
inductive Call where
  | ReadAll
  | DebounceButtonState (nButtonState nMask : Nat)
  | Encoder1_ReadGPIOPins (bCLK bDAT : Nat)
  | Encoder2_ReadGPIOPins (bCLK bDAT : Nat)
  deriving DecidableEq

/-- The GPIO block seen from outside: `samples k` is the word the `k`-th bulk read
returns, `nReads` counts the bulk reads made so far, `calls` lists every call made. -/
structure Recorder where
  samples : Nat → Nat
  nReads : Nat
  calls : List Call

/-- The collaborators as recorders: every call is appended to `calls`; `ReadAll` returns
the next sample and advances the read counter. -/
def Recorder.ops : PinOps Recorder where
  ReadAll := fun w =>
    (w.samples w.nReads, { w with nReads := w.nReads + 1, calls := w.calls ++ [Call.ReadAll] })
  DebounceButtonState := fun st m w =>
    { w with calls := w.calls ++ [Call.DebounceButtonState st m] }
  Encoder1_ReadGPIOPins := fun c d w =>
    { w with calls := w.calls ++ [Call.Encoder1_ReadGPIOPins c d] }
  Encoder2_ReadGPIOPins := fun c d w =>
    { w with calls := w.calls ++ [Call.Encoder2_ReadGPIOPins c d] }

/-- Is the call a `DebounceButtonState` call? -/
def Call.isDebounce : Call → Bool
  | Call.DebounceButtonState _ _ => true
  | _ => false

/-- Is the call a bulk read? -/
def Call.isReadAll : Call → Bool
  | Call.ReadAll => true
  | _ => false

/-! ## Events and `Update` -/

/-- `TEncoder`, as far as the file uses it. -/
inductive TEncoder where
  | Encoder1
  | Encoder2
  deriving DecidableEq

/-- Modelled from the spec: the event record `TEvent` (declared outside the sources).
`Encoder` carries the two fields `Update` fills in (`Encoder.Encoder`, `Encoder.nDelta`);
`Button` is the spec's `ButtonTransition{button, pressed|released}`. -/
inductive TEvent where
  | Button (Button : Nat) (bPressed : Bool)
  | Encoder (Encoder : TEncoder) (nDelta : Int)
  deriving DecidableEq

/-- What `Update` calls: the base-class `CControl::Update`, `CRotaryEncoder::Read` of the
two encoder members and `Enqueue` of the event queue, as operations on a state `σ`. -/
structure UpdateOps (σ : Type) where
  CControl_Update : σ → σ
  Encoder1_Read : σ → Int × σ
  Encoder2_Read : σ → Int × σ
  Enqueue : TEvent → σ → σ

/-- `CControlSimpleEncoder::Update` (lines 57-79). -/
def Update {σ : Type} (ops : UpdateOps σ) (s : σ) : σ :=
  -- CControl::Update();
  let s := ops.CControl_Update s
  -- const s8 nEncoderDelta_1 = m_Encoder_1.Read();
  let r := ops.Encoder1_Read s
  let nEncoderDelta_1 := s8 r.1
  let s := r.2
  let s := if nEncoderDelta_1 ≠ 0 then
      ops.Enqueue (TEvent.Encoder TEncoder.Encoder1 nEncoderDelta_1) s
    else s
  -- const s8 nEncoderDelta_2 = m_Encoder_2.Read();
  let r := ops.Encoder2_Read s
  let nEncoderDelta_2 := s8 r.1
  let s := r.2
  if nEncoderDelta_2 ≠ 0 then
    ops.Enqueue (TEvent.Encoder TEncoder.Encoder2 nEncoderDelta_2) s
  else s

/-- The members of a `CControlSimpleEncoder` that `Update` reaches: the queue behind
`m_pEventQueue`, the two encoder members, and the rest of the object (`base`). -/
structure Control (B E : Type) where
  m_EventQueue : List TEvent
  m_Encoder_1 : E
  m_Encoder_2 : E
  base : B

/-- Modelled from the spec: `Enqueue(Event)` of the event queue (`TEventQueue` is declared
outside the sources): the event is appended at the tail of a FIFO. -/
def Control.Enqueue {B E : Type} (e : TEvent) (c : Control B E) : Control B E :=
  { c with m_EventQueue := c.m_EventQueue ++ [e] }

/-- The collaborators of `Update` on a `Control`: `CControl::Update` is any function of the
object, `CRotaryEncoder::Read` is any function of the encoder it is called on (an encoder
is constructed from its type, the reversal flag and two pin numbers only, lines 51-52). -/
def Control.ops {B E : Type} (CControl_Update : Control B E → Control B E)
    (Read : E → Int × E) : UpdateOps (Control B E) where
  CControl_Update := CControl_Update
  Encoder1_Read := fun c => ((Read c.m_Encoder_1).1, { c with m_Encoder_1 := (Read c.m_Encoder_1).2 })
  Encoder2_Read := fun c => ((Read c.m_Encoder_2).1, { c with m_Encoder_2 := (Read c.m_Encoder_2).2 })
  Enqueue := Control.Enqueue


end SimpleEncoder

namespace FluidSys

/-! ## The log-handler tables (fluid_sys.c, lines 53-166) -/

/-- The two static tables `fluid_log_function` and `fluid_log_user_data`, each with
`LAST_LOG_LEVEL` entries.  `LAST_LOG_LEVEL` comes from a header outside the sources and
is the parameter `n`; `F` is the type of non-NULL handlers, `D` of non-NULL data
pointers, so `none` is `NULL`. -/
structure LogTables (n : Nat) (F D : Type) where
  fluid_log_function : Fin n → Option F
  fluid_log_user_data : Fin n → Option D

/-- `fluid_set_log_function` (lines 76-89): the returned handler and the tables after
the call. -/
def fluid_set_log_function {n : Nat} {F D : Type} (t : LogTables n F D) (level : Int)
    (fn : Option F) (data : Option D) : Option F × LogTables n F D :=
  -- fluid_log_function_t old = NULL;
  if h : 0 ≤ level ∧ level < (n : Int) then
    let i : Fin n := ⟨level.toNat, by omega⟩
    (t.fluid_log_function i,
     { fluid_log_function := Function.update t.fluid_log_function i fn
       fluid_log_user_data := Function.update t.fluid_log_user_data i data })
  else
    (none, t)

/-- One handler invocation `(*fun)(level, errbuf, fluid_log_user_data[level])`. -/
structure Invocation (F D M : Type) where
  handler : F
  level : Int
  message : M
  data : Option D

/-- The process as `fluid_log` sees it: the tables and the handler invocations made so
far. -/
structure LogWorld (n : Nat) (F D M : Type) where
  tables : LogTables n F D
  invoked : List (Invocation F D M)

/-- What `fluid_log` uses but the file does not define: the constant `FLUID_FAILED`, the
formatter `FLUID_VSNPRINTF` (buffer size, format, arguments) and the body of a handler,
which may do anything to the process. -/
structure LogEnv (n : Nat) (F D M Fmt Args : Type) where
  FLUID_FAILED : Int
  FLUID_VSNPRINTF : Nat → Fmt → Args → M
  run : Invocation F D M → LogWorld n F D M → LogWorld n F D M

/-- `fluid_log` (lines 145-166): the return value and the process after the call. -/
def fluid_log {n : Nat} {F D M Fmt Args : Type} (env : LogEnv n F D M Fmt Args)
    (w : LogWorld n F D M) (level : Int) (fmt : Fmt) (args : Args) :
    Int × LogWorld n F D M :=
  if h : 0 ≤ level ∧ level < (n : Int) then
    let i : Fin n := ⟨level.toNat, by omega⟩
    match w.tables.fluid_log_function i with
    | some f =>
      let errbuf := env.FLUID_VSNPRINTF 1024 fmt args
      let inv : Invocation F D M := ⟨f, level, errbuf, w.tables.fluid_log_user_data i⟩
      (env.FLUID_FAILED, env.run inv { w with invoked := w.invoked ++ [inv] })
    | none => (env.FLUID_FAILED, w)
  else
    (env.FLUID_FAILED, w)

/-! ## `fluid_strtok` (lines 181-242)

Memory is a list of bytes: `buf` is the caller's character buffer, a pointer into it is
an offset, and every byte from the end of the list on reads as 0, so each list is a
NUL-terminated buffer (its last NUL is left implicit).  `none` is the NULL pointer. -/

/-- The inner `for(d = delim; *d; d++)` loop with its `if(c == *d)`: does `c` equal one of
the bytes of `delim` before its NUL? -/
def matchDelim (c : Nat) : List Nat → Bool
  | [] => false
  | d :: ds => if d = 0 then false else if c = d then true else matchDelim c ds

/-- The `do … while(*d)` loop of lines 200-219, run on the bytes from `s` on: `none` when
the end of the source string is reached, else the offset of the first byte that is not a
delimiter. -/
def skipDelims (delim : List Nat) : List Nat → Nat → Option Nat
  | [], _ => none
  | c :: rest, s =>
    if c = 0 then none
    else if matchDelim c delim then skipDelims delim rest (s + 1)
    else some s

/-- The `for(s = s + 1; *s; s++)` loop of lines 224-237, run on the bytes from `s` on:
the offset of the first delimiter byte, `none` when the string ends first. -/
def scanToken (delim : List Nat) : List Nat → Nat → Option Nat
  | [], _ => none
  | c :: rest, s =>
    if c = 0 then none
    else if matchDelim c delim then some s
    else scanToken delim rest (s + 1)

/-- Outcome of one call: the returned pointer, the value of `*str` afterwards (`none`
also when `str` itself is NULL), the buffer afterwards, and whether
`FLUID_LOG(FLUID_ERR, "Null pointer")` was executed. -/
structure StrtokResult where
  ret : Option Nat
  str : Option Nat
  buf : List Nat
  logged : Bool
  deriving DecidableEq

/-- `fluid_strtok(str, delim)` on the buffer `buf`.  `str = none` is a NULL `str`,
`str = some v` a valid `str` with `*str = v`; `delim = none` is a NULL `delim`, otherwise
the bytes of the delimiter string. -/
def fluid_strtok (buf : List Nat) (str : Option (Option Nat)) (delim : Option (List Nat)) :
    StrtokResult :=
  match str, delim with
  | none, _ => ⟨none, none, buf, true⟩
  | some v, none => ⟨none, v, buf, true⟩
  | some v, some dl =>
    if dl.headD 0 = 0 then ⟨none, v, buf, true⟩   -- !*delim
    else
      match v with
      | none => ⟨none, none, buf, false⟩   -- tokenize already ended
      | some s =>
        match skipDelims dl (buf.drop s) s with
        | none => ⟨none, none, buf, false⟩   -- *str = NULL; return NULL;
        | some token =>
          match scanToken dl (buf.drop (token + 1)) (token + 1) with
          | some e => ⟨some token, some (e + 1), buf.set e 0, false⟩
          | none => ⟨some token, none, buf, false⟩

/-- The C string at offset `p` of `buf`: the bytes before the first NUL. -/
def cstr (buf : List Nat) (p : Nat) : List Nat :=
  (buf.drop p).takeWhile (fun c => c != 0)

/-- Calling `fluid_strtok` on the same string pointer until it returns NULL: the tokens
returned, each read as a C string when it is returned.  `none` when `fuel` calls did not
reach the NULL return. -/
def strtokAll (delim : List Nat) : Nat → List Nat → Option Nat → Option (List (List Nat))
  | 0, _, _ => none
  | fuel + 1, buf, v =>
    let r := fluid_strtok buf (some v) (some delim)
    match r.ret with
    | none => some []
    | some token => (strtokAll delim fuel r.buf r.str).map (fun ts => cstr r.buf token :: ts)

/-- The tokens of `s` split on the characters of `delim`, empty pieces dropped: the
statement of the tokenizer in the words of its documentation. -/
def splitTokens (delim : List Nat) (s : List Nat) : List (List Nat) :=
  (s.splitOnP (fun c => decide (c ∈ cstr delim 0))).filter (fun t => !t.isEmpty)

end FluidSys

namespace SimpleEncoder

/-! ## The pin assignment as a table -/

/-- The eight pin constants of lines 26-35, one per logical input, in the order
Button1, Button2, Encoder1Button, Encoder1CLK, Encoder1DAT, Encoder2Button, Encoder2CLK,
Encoder2DAT. -/
def GPIOPins : List Nat :=
  [GPIOPinButton1, GPIOPinButton2, GPIOPinEncoder1Button, GPIOPinEncoder1CLK,
   GPIOPinEncoder1DAT, GPIOPinEncoder2Button, GPIOPinEncoder2CLK, GPIOPinEncoder2DAT]

/-- The mask `1 << pin` of one logical input in the 32-bit word `ReadAll` returns. -/
def pinMask (pin : Nat) : Nat := u32 (1 <<< pin)

/-- The four terms `1 << static_cast<u8>(TButton::…)` whose disjunction is `ButtonMask`
(lines 37-40), in the order they are written. -/
def ButtonMaskTerms (tb : TButton) : List Nat :=
  [1 <<< u8 tb.Button1, 1 <<< u8 tb.Button2, 1 <<< u8 tb.EncoderButton1,
   1 <<< u8 tb.EncoderButton2]

end SimpleEncoder

namespace SimpleEncoder

/-! ## The decoder and the debouncer, modelled from the spec

`CRotaryEncoder` and the base class `CControl` (with `DebounceButtonState` and
`CControl::Update`) are used by simpleencoder.cpp but defined elsewhere.  The models below
follow sections 3, 4.2, 4.3 and 4.4 of the specification. -/

/-- Modelled from the spec: the state of the Rotary Encoder Decoder `CRotaryEncoder`,
whose class is defined outside the sources.  Section 3: "the last-sampled (clock, data)
pair and an accumulator/phase value sufficient to detect a full quadrature step";
`m_bReversed` is the configuration flag `reversed`, `m_nDelta` the detents completed
since the last `Read`. -/
structure CRotaryEncoder where
  m_bReversed : Bool
  lastCLK : Nat
  lastDAT : Nat
  phase : Int
  m_nDelta : Int
  deriving DecidableEq

/-- Modelled from the spec: the place of a (clock, data) combination in the forward
quadrature sequence 00, 01, 11, 10 of section 8 (a non-zero line reads as 1);
`CRotaryEncoder` itself is not in the sources. -/
def quadIndex (bCLK bDAT : Nat) : Nat :=
  if bCLK = 0 then (if bDAT = 0 then 0 else 1) else (if bDAT = 0 then 3 else 2)

/-- Modelled from the spec: the decoder as constructed (its constructor is outside the
sources), at rest on the combination 00 with nothing counted. -/
def CRotaryEncoder.init (bReversed : Bool) : CRotaryEncoder :=
  ⟨bReversed, 0, 0, 0, 0⟩

/-- Modelled from the spec: `CRotaryEncoder::ReadGPIOPins(clock, data)`, defined outside
the sources.  Section 4.2: "maintains a small state machine over the 4 possible
(clock,data) combinations; a full rotation is recognized only through a specific valid
sequence of transitions".  `phase` counts quarter steps since the combination 00 was
left, forward `+1`, backward `-1`; a sample in which both lines changed is no valid
transition and restarts the count; a detent is counted only on returning to 00 with four
quarter steps in one direction. -/
def CRotaryEncoder.ReadGPIOPins (bCLK bDAT : Nat) (e : CRotaryEncoder) : CRotaryEncoder :=
  let step := (quadIndex bCLK bDAT + 4 - quadIndex e.lastCLK e.lastDAT) % 4
  let phase : Int :=
    if step = 0 then e.phase
    else if step = 1 then e.phase + 1
    else if step = 3 then e.phase - 1
    else 0
  if quadIndex bCLK bDAT = 0 then
    { e with
      lastCLK := bCLK, lastDAT := bDAT, phase := 0,
      m_nDelta := e.m_nDelta + (if phase = 4 then 1 else if phase = -4 then -1 else 0) }
  else
    { e with lastCLK := bCLK, lastDAT := bDAT, phase := phase }

/-- Modelled from the spec: `CRotaryEncoder::Read()`, defined outside the sources.
Section 4.2: the output is a "signed step delta", "the default contract returns at most
one detent per call", and "`reversed` flips sign of reported deltas"; reading clears what
was counted. -/
def CRotaryEncoder.Read (e : CRotaryEncoder) : Int × CRotaryEncoder :=
  let d : Int := if 0 < e.m_nDelta then 1 else if e.m_nDelta < 0 then -1 else 0
  ((if e.m_bReversed then -d else d), { e with m_nDelta := 0 })

/-- Modelled from the spec: one sample of one relevant bit in the Button Debouncer, which
is defined outside the sources.  Section 4.3: a transition is reported "once a bit's
value has remained constant across N consecutive calls"; the state is a per-bit counter.
Arguments: `N`, the raw bit, the debounced bit `s`, the count `c` of consecutive samples
that differ from `s`.  Result: new debounced bit, new count, reported transition. -/
def debounceBit (N : Nat) (raw s : Bool) (c : Nat) : Bool × Nat × Option Bool :=
  if raw = s then (s, 0, none)
  else if N ≤ c + 1 then (raw, 0, some raw)
  else (s, c + 1, none)

/-- Modelled from the spec: the state of the Button Debouncer kept by the base class
`CControl` (defined outside the sources): the debounce length `N`, per bit the debounced
state (`true` is pressed) and the counter, and the stable transitions not yet turned into
events. -/
structure Debouncer where
  nDebounce : Nat
  state : Nat → Bool
  count : Nat → Nat
  pending : List (Nat × Bool)

/-- Modelled from the spec: `DebounceButtonState(state, mask)`, defined outside the
sources.  Section 4.3: input "raw bitmask sample, relevant-bit mask"; "irrelevant bits
(outside mask) are never considered and never emit events"; the bits of the state byte are
handled in ascending order. -/
def Debouncer.DebounceButtonState (nState nMask : Nat) (d : Debouncer) : Debouncer where
  nDebounce := d.nDebounce
  state := fun k =>
    if k < 8 ∧ nMask.testBit k = true then
      (debounceBit d.nDebounce (nState.testBit k) (d.state k) (d.count k)).1
    else d.state k
  count := fun k =>
    if k < 8 ∧ nMask.testBit k = true then
      (debounceBit d.nDebounce (nState.testBit k) (d.state k) (d.count k)).2.1
    else d.count k
  pending := d.pending ++ (List.range 8).filterMap (fun k =>
    if nMask.testBit k = true then
      (debounceBit d.nDebounce (nState.testBit k) (d.state k) (d.count k)).2.2.map
        (fun b => (k, b))
    else none)

/-- The whole poller with its modelled collaborators: the GPIO samples still to come
(`samples k` is returned by the `k`-th bulk read), the event queue, the two decoders and
the debouncer. -/
structure Poller where
  samples : Nat → Nat
  nReads : Nat
  m_EventQueue : List TEvent
  m_Encoder_1 : CRotaryEncoder
  m_Encoder_2 : CRotaryEncoder
  debouncer : Debouncer

/-- The collaborators of `ReadGPIOPins` on a `Poller`. -/
def Poller.pinOps : PinOps Poller where
  ReadAll := fun w => (w.samples w.nReads, { w with nReads := w.nReads + 1 })
  DebounceButtonState := fun st m w =>
    { w with debouncer := w.debouncer.DebounceButtonState st m }
  Encoder1_ReadGPIOPins := fun c d w =>
    { w with m_Encoder_1 := w.m_Encoder_1.ReadGPIOPins c d }
  Encoder2_ReadGPIOPins := fun c d w =>
    { w with m_Encoder_2 := w.m_Encoder_2.ReadGPIOPins c d }

/-- Modelled from the spec: `CControl::Update`, defined outside the sources.  Section 4.4:
"translate every stable transition/delta into an Event and push it, in deterministic
order (buttons processed in a fixed declared order, then encoders …)": every pending
button transition becomes a `Button` event at the tail of the queue. -/
def Poller.CControl_Update (w : Poller) : Poller :=
  { w with
    m_EventQueue := w.m_EventQueue ++ w.debouncer.pending.map (fun p => TEvent.Button p.1 p.2),
    debouncer := { w.debouncer with pending := [] } }

/-- The collaborators of `Update` on a `Poller`; `Enqueue` appends at the tail of the
queue. -/
def Poller.updateOps : UpdateOps Poller where
  CControl_Update := Poller.CControl_Update
  Encoder1_Read := fun w => (w.m_Encoder_1.Read.1, { w with m_Encoder_1 := w.m_Encoder_1.Read.2 })
  Encoder2_Read := fun w => (w.m_Encoder_2.Read.1, { w with m_Encoder_2 := w.m_Encoder_2.Read.2 })
  Enqueue := fun e w => { w with m_EventQueue := w.m_EventQueue ++ [e] }

/-- One scheduling tick: `ReadGPIOPins`, then `Update`. -/
def tick (tb : TButton) (w : Poller) : Poller :=
  Update Poller.updateOps (ReadGPIOPins tb Poller.pinOps w)

/-- `n` successive ticks. -/
def ticks (tb : TButton) : Nat → Poller → Poller
  | 0, w => w
  | n + 1, w => ticks tb n (tick tb w)

/-- The decoder member for an encoder. -/
def Poller.encoder (w : Poller) : TEncoder → CRotaryEncoder
  | TEncoder.Encoder1 => w.m_Encoder_1
  | TEncoder.Encoder2 => w.m_Encoder_2

/-- The (clock, data) lines of an encoder in the GPIO word `g`, by the pin constants. -/
def encoderLines (enc : TEncoder) (g : Nat) : Nat × Nat :=
  match enc with
  | TEncoder.Encoder1 => ((g >>> GPIOPinEncoder1CLK) &&& 1, (g >>> GPIOPinEncoder1DAT) &&& 1)
  | TEncoder.Encoder2 => ((g >>> GPIOPinEncoder2CLK) &&& 1, (g >>> GPIOPinEncoder2DAT) &&& 1)

/-- The (clock, data) lines of an encoder over the next `n` bulk reads. -/
def lineTrace (enc : TEncoder) (w : Poller) (n : Nat) : List (Nat × Nat) :=
  (List.range n).map (fun i => encoderLines enc (u32 (w.samples (w.nReads + i))))

/-- Bit `k` of the button state byte over the next `n` bulk reads. -/
def rawTrace (tb : TButton) (k : Nat) (w : Poller) (n : Nat) : List Bool :=
  (List.range n).map (fun i => (nButtonState tb (u32 (w.samples (w.nReads + i)))).testBit k)

/-- The `Encoder` events of one encoder in a queue. -/
def encoderEvents (enc : TEncoder) (q : List TEvent) : List TEvent :=
  q.filter (fun e => match e with
    | TEvent.Encoder x _ => decide (x = enc)
    | _ => false)

/-- The `Button` events of button `k` in a queue. -/
def buttonEvents (k : Nat) (q : List TEvent) : List TEvent :=
  q.filter (fun e => match e with
    | TEvent.Button j _ => decide (j = k)
    | _ => false)

/-- The deltas a decoder reports when it is fed the given line samples and read after
each one. -/
def deltaTrace : CRotaryEncoder → List (Nat × Nat) → List Int
  | _, [] => []
  | e, p :: ps =>
    (e.ReadGPIOPins p.1 p.2).Read.1 :: deltaTrace (e.ReadGPIOPins p.1 p.2).Read.2 ps

/-- The transitions one relevant bit reports over a run of raw samples. -/
def bitTrace (N : Nat) : Bool → Nat → List Bool → List Bool
  | _, _, [] => []
  | s, c, r :: rs =>
    (debounceBit N r s c).2.2.toList ++
      bitTrace N (debounceBit N r s c).1 (debounceBit N r s c).2.1 rs

/-- The events `Update` enqueues for the deltas read from one encoder: one `Encoder`
event per non-zero delta. -/
def deltaEvents (enc : TEncoder) (ds : List Int) : List TEvent :=
  ds.filterMap (fun d => if d ≠ 0 then some (TEvent.Encoder enc d) else none)

end SimpleEncoder

/-! # Properties of `CControlSimpleEncoder` -/

namespace SimpleEncoder

theorem testBit_one_eq (j : Nat) : Nat.testBit 1 j = decide (j = 0) := by
  cases j with
  | zero => rfl
  | succ j => simp [Nat.testBit_succ]

theorem testBit_bit_term (x b k : Nat) :
    (u32 ((x &&& 1) <<< b)).testBit k = (decide (k < 32) && (decide (k = b) && x.testBit 0)) := by
  unfold u32
  rw [Nat.testBit_mod_two_pow, Nat.testBit_shiftLeft, Nat.testBit_and, testBit_one_eq]
  by_cases h1 : k < 32 <;> by_cases h2 : k = b <;> by_cases h3 : k ≥ b <;> simp [h1, h2, h3]
  · intro _ h; omega

theorem testBit_mask_term (b k : Nat) : (1 <<< b).testBit k = decide (k = b) := by
  rw [Nat.one_shiftLeft, Nat.testBit_two_pow]
  by_cases h : k = b <;> simp [h, eq_comm]
  exact fun h2 => h h2.symm

theorem nButtonState_testBit (tb : TButton) (g k : Nat) :
    (nButtonState tb g).testBit k =
      (decide (k < 8) &&
        ((decide (k = u8 tb.Button1) && g.testBit GPIOPinButton1) ||
         (decide (k = u8 tb.Button2) && g.testBit GPIOPinButton2) ||
         (decide (k = u8 tb.EncoderButton1) && g.testBit GPIOPinEncoder1Button) ||
         (decide (k = u8 tb.EncoderButton2) && g.testBit GPIOPinEncoder2Button))) := by
  unfold nButtonState
  conv_lhs => unfold u8
  rw [Nat.testBit_mod_two_pow]
  simp only [Nat.testBit_or, testBit_bit_term, Nat.testBit_shiftRight, Nat.add_zero]
  by_cases h : k < 8
  · have : k < 32 := by omega
    simp [h, this, u8]
  · simp [h]

theorem ButtonMask_testBit (tb : TButton) (k : Nat) :
    (ButtonMask tb).testBit k =
      (decide (k < 8) &&
        (decide (k = u8 tb.Button1) || decide (k = u8 tb.Button2) ||
         decide (k = u8 tb.EncoderButton1) || decide (k = u8 tb.EncoderButton2))) := by
  unfold ButtonMask
  conv_lhs => unfold u8
  rw [Nat.testBit_mod_two_pow]
  simp only [Nat.testBit_or, testBit_mask_term]
  simp [u8]

theorem ReadGPIOPins_calls (tb : TButton) (w : Recorder) :
    (ReadGPIOPins tb Recorder.ops w).calls =
      w.calls ++
        [Call.ReadAll,
         Call.DebounceButtonState (nButtonState tb (u32 (w.samples w.nReads))) (ButtonMask tb),
         Call.Encoder1_ReadGPIOPins ((u32 (w.samples w.nReads) >>> GPIOPinEncoder1CLK) &&& 1)
           ((u32 (w.samples w.nReads) >>> GPIOPinEncoder1DAT) &&& 1),
         Call.Encoder2_ReadGPIOPins ((u32 (w.samples w.nReads) >>> GPIOPinEncoder2CLK) &&& 1)
           ((u32 (w.samples w.nReads) >>> GPIOPinEncoder2DAT) &&& 1)] := by
  simp [ReadGPIOPins, Recorder.ops]

theorem u32_testBit (g k : Nat) (hk : k < 32) : (u32 g).testBit k = g.testBit k := by
  unfold u32
  rw [Nat.testBit_mod_two_pow]
  simp [hk]

/-- C1. For every word returned by `CGPIOPin::ReadAll` and every assignment of pairwise
distinct values below 8 to the four `TButton` enumerators, `ReadGPIOPins` makes exactly one
`DebounceButtonState` call; in its state byte bit `Button1` is bit 17 of the word, bit
`Button2` is bit 27, bit `EncoderButton1` is bit 4 and bit `EncoderButton2` is bit 26,
every other bit is 0 (so `state & ~ButtonMask = 0`), and its mask argument is
`ButtonMask`, whose set bits are exactly those four. -/
theorem ReadGPIOPins_debounce_arguments (tb : TButton) (htb : tb.Valid) (w : Recorder) :
    ((ReadGPIOPins tb Recorder.ops w).calls.drop w.calls.length).filter Call.isDebounce =
        [Call.DebounceButtonState (nButtonState tb (u32 (w.samples w.nReads))) (ButtonMask tb)] ∧
      (nButtonState tb (u32 (w.samples w.nReads))).testBit tb.Button1 =
        (w.samples w.nReads).testBit 17 ∧
      (nButtonState tb (u32 (w.samples w.nReads))).testBit tb.Button2 =
        (w.samples w.nReads).testBit 27 ∧
      (nButtonState tb (u32 (w.samples w.nReads))).testBit tb.EncoderButton1 =
        (w.samples w.nReads).testBit 4 ∧
      (nButtonState tb (u32 (w.samples w.nReads))).testBit tb.EncoderButton2 =
        (w.samples w.nReads).testBit 26 ∧
      (∀ k, k ≠ tb.Button1 → k ≠ tb.Button2 → k ≠ tb.EncoderButton1 → k ≠ tb.EncoderButton2 →
        (nButtonState tb (u32 (w.samples w.nReads))).testBit k = false) ∧
      nButtonState tb (u32 (w.samples w.nReads)) &&& (0xFFFFFFFF ^^^ ButtonMask tb) = 0 ∧
      (∀ k, (ButtonMask tb).testBit k = true ↔
        (k = tb.Button1 ∨ k = tb.Button2 ∨ k = tb.EncoderButton1 ∨ k = tb.EncoderButton2)) := by
  obtain ⟨h1, h2, h3, h4, h12, h13, h14, h23, h24, h34⟩ := htb
  have e1 : u8 tb.Button1 = tb.Button1 := by unfold u8; omega
  have e2 : u8 tb.Button2 = tb.Button2 := by unfold u8; omega
  have e3 : u8 tb.EncoderButton1 = tb.EncoderButton1 := by unfold u8; omega
  have e4 : u8 tb.EncoderButton2 = tb.EncoderButton2 := by unfold u8; omega
  have hst : ∀ k, (nButtonState tb (u32 (w.samples w.nReads))).testBit k =
      ((decide (k = tb.Button1) && (w.samples w.nReads).testBit 17) ||
       (decide (k = tb.Button2) && (w.samples w.nReads).testBit 27) ||
       (decide (k = tb.EncoderButton1) && (w.samples w.nReads).testBit 4) ||
       (decide (k = tb.EncoderButton2) && (w.samples w.nReads).testBit 26)) := by
    intro k
    rw [nButtonState_testBit, e1, e2, e3, e4]
    simp only [GPIOPinButton1, GPIOPinButton2, GPIOPinEncoder1Button, GPIOPinEncoder2Button]
    rw [u32_testBit _ 17 (by omega), u32_testBit _ 27 (by omega), u32_testBit _ 4 (by omega),
      u32_testBit _ 26 (by omega)]
    by_cases hk : k < 8
    · simp [hk]
    · have n1 : k ≠ tb.Button1 := by omega
      have n2 : k ≠ tb.Button2 := by omega
      have n3 : k ≠ tb.EncoderButton1 := by omega
      have n4 : k ≠ tb.EncoderButton2 := by omega
      simp [hk, n1, n2, n3, n4]
  have hm : ∀ k, (ButtonMask tb).testBit k = true ↔
      (k = tb.Button1 ∨ k = tb.Button2 ∨ k = tb.EncoderButton1 ∨ k = tb.EncoderButton2) := by
    intro k
    rw [ButtonMask_testBit, e1, e2, e3, e4]
    simp only [Bool.and_eq_true, Bool.or_eq_true, decide_eq_true_eq]
    constructor
    · rintro ⟨_, h⟩; tauto
    · intro h
      refine ⟨?_, by tauto⟩
      rcases h with h | h | h | h <;> omega
  refine ⟨?_, ?_, ?_, ?_, ?_, ?_, ?_, hm⟩
  · rw [ReadGPIOPins_calls]
    simp [Call.isDebounce]
  · rw [hst]; simp [h12, h13, h14]
  · rw [hst]; simp [h12.symm, h23, h24]
  · rw [hst]; simp [h13.symm, h23.symm, h34]
  · rw [hst]; simp [h14.symm, h24.symm, h34.symm]
  · intro k n1 n2 n3 n4
    rw [hst]; simp [n1, n2, n3, n4]
  · apply Nat.eq_of_testBit_eq
    intro k
    rw [Nat.testBit_and, Nat.testBit_xor, Nat.zero_testBit]
    by_cases hk : k = tb.Button1 ∨ k = tb.Button2 ∨ k = tb.EncoderButton1 ∨ k = tb.EncoderButton2
    · have hb : (ButtonMask tb).testBit k = true := (hm k).2 hk
      have hk32 : k < 32 := by rcases hk with h | h | h | h <;> omega
      have hone : Nat.testBit 0xFFFFFFFF k = true := by
        have : (0xFFFFFFFF : Nat) = 2 ^ 32 - 1 := by norm_num
        rw [this, Nat.testBit_two_pow_sub_one]; simp [hk32]
      rw [hb, hone]; simp
    · push_neg at hk
      rw [hst]; simp [hk.1, hk.2.1, hk.2.2.1, hk.2.2.2]

/-- Witness for C1: enumerators 0, 1, 2, 3 and the sampled word with bits 4, 17 and 27 set. -/
theorem ReadGPIOPins_debounce_arguments_witness :
    TButton.Valid ⟨0, 1, 2, 3⟩ ∧
    ((ReadGPIOPins ⟨0, 1, 2, 3⟩ Recorder.ops ⟨fun _ => 0x08020010, 0, []⟩).calls.drop 0).filter
        Call.isDebounce = [Call.DebounceButtonState 7 15] := by
  have h := ReadGPIOPins_debounce_arguments ⟨0, 1, 2, 3⟩ (by decide) ⟨fun _ => 0x08020010, 0, []⟩
  exact ⟨by decide, h.1.trans (by decide)⟩

/-- C10. Each call of `ReadGPIOPins` makes exactly one bulk read `CGPIOPin::ReadAll` (the
read counter advances by one and the calls made contain one `ReadAll`), and the button
state byte and the clock and data arguments of both encoders are computed from the word
`g` that read returned: the calls made are determined by `g` alone. -/
theorem ReadGPIOPins_single_bulk_read (tb : TButton) (w : Recorder) :
    (ReadGPIOPins tb Recorder.ops w).nReads = w.nReads + 1 ∧
    (((ReadGPIOPins tb Recorder.ops w).calls.drop w.calls.length).filter Call.isReadAll).length
      = 1 ∧
    (ReadGPIOPins tb Recorder.ops w).calls.drop w.calls.length =
      [Call.ReadAll,
       Call.DebounceButtonState (nButtonState tb (u32 (w.samples w.nReads))) (ButtonMask tb),
       Call.Encoder1_ReadGPIOPins ((u32 (w.samples w.nReads) >>> 22) &&& 1)
         ((u32 (w.samples w.nReads) >>> 23) &&& 1),
       Call.Encoder2_ReadGPIOPins ((u32 (w.samples w.nReads) >>> 16) &&& 1)
         ((u32 (w.samples w.nReads) >>> 12) &&& 1)] ∧
    (∀ w2 : Recorder, w2.samples w2.nReads = w.samples w.nReads →
      (ReadGPIOPins tb Recorder.ops w2).calls.drop w2.calls.length =
        (ReadGPIOPins tb Recorder.ops w).calls.drop w.calls.length) := by
  refine ⟨?_, ?_, ?_, ?_⟩
  · simp [ReadGPIOPins, Recorder.ops]
  · rw [ReadGPIOPins_calls]; simp [Call.isReadAll]
  · rw [ReadGPIOPins_calls]
    simp [GPIOPinEncoder1CLK, GPIOPinEncoder1DAT, GPIOPinEncoder2CLK, GPIOPinEncoder2DAT]
  · intro w2 h
    rw [ReadGPIOPins_calls, ReadGPIOPins_calls, h]
    simp

/-- C2. With `q` the queue left by `CControl::Update` and `d1`, `d2` the deltas returned by
`m_Encoder_1.Read()` and `m_Encoder_2.Read()` (values of type `s8`), the queue after
`Update` is `q`, then an `Encoder1` event carrying `d1` if `d1 ≠ 0`, then an `Encoder2`
event carrying `d2` if `d2 ≠ 0`; at most two events are added. -/
theorem Update_queue {B E : Type} (CControl_Update : Control B E → Control B E)
    (Read : E → Int × E) (c : Control B E) (q : List TEvent) (d1 d2 : Int)
    (hq : (CControl_Update c).m_EventQueue = q)
    (h1 : (Read (CControl_Update c).m_Encoder_1).1 = d1)
    (h2 : (Read (CControl_Update c).m_Encoder_2).1 = d2)
    (hd1 : -128 ≤ d1 ∧ d1 ≤ 127) (hd2 : -128 ≤ d2 ∧ d2 ≤ 127) :
    (Update (Control.ops CControl_Update Read) c).m_EventQueue =
        q ++ (if d1 ≠ 0 then [TEvent.Encoder TEncoder.Encoder1 d1] else []) ++
          (if d2 ≠ 0 then [TEvent.Encoder TEncoder.Encoder2 d2] else []) ∧
      (Update (Control.ops CControl_Update Read) c).m_EventQueue.length ≤ q.length + 2 := by
  have s1 : s8 d1 = d1 := by unfold s8; omega
  have s2 : s8 d2 = d2 := by unfold s8; omega
  have s0 : s8 0 = 0 := by decide
  have key : (Update (Control.ops CControl_Update Read) c).m_EventQueue =
        q ++ (if d1 ≠ 0 then [TEvent.Encoder TEncoder.Encoder1 d1] else []) ++
          (if d2 ≠ 0 then [TEvent.Encoder TEncoder.Encoder2 d2] else []) := by
    subst hq h1 h2
    by_cases z1 : (Read (CControl_Update c).m_Encoder_1).1 = 0 <;>
      by_cases z2 : (Read (CControl_Update c).m_Encoder_2).1 = 0 <;>
      simp [Update, Control.ops, Control.Enqueue, s1, s2, s0, z1, z2]
  refine ⟨key, ?_⟩
  rw [key]
  by_cases z1 : d1 = 0 <;> by_cases z2 : d2 = 0 <;> simp [z1, z2]

/-- Witness for C2: the base update enqueues a button event, encoder 1 reports `+1` and
encoder 2 reports `0`. -/
theorem Update_queue_witness :
    (Update (Control.ops (fun c : Control Unit (List Int) => Control.Enqueue (TEvent.Button 0 true) c)
        (fun e => (e.headD 0, e.tail))) ⟨[], [1], [0], ()⟩).m_EventQueue =
      [TEvent.Button 0 true, TEvent.Encoder TEncoder.Encoder1 1] :=
  (Update_queue (fun c : Control Unit (List Int) => Control.Enqueue (TEvent.Button 0 true) c)
    (fun e => (e.headD 0, e.tail)) ⟨[], [1], [0], ()⟩ [TEvent.Button 0 true] 1 0
    rfl rfl rfl (by decide) (by decide)).1

theorem mask_terms_disjoint (a b : Nat) (h : a ≠ b) : (1 <<< a) &&& (1 <<< b) = 0 := by
  apply Nat.eq_of_testBit_eq
  intro k
  rw [Nat.testBit_and, testBit_mask_term, testBit_mask_term, Nat.zero_testBit]
  by_cases h1 : k = a
  · have h2 : k ≠ b := fun e => h (h1.symm.trans e)
    simp [h2]
  · simp [h1]

/-- C11. The eight pin constants are 17, 27, 4, 22, 23, 26, 16, 12, pairwise distinct and
below 32, so the masks `1 << pin` of two different logical inputs have bitwise AND 0 in
the 32-bit GPIO word; and when the four `TButton` enumerators are pairwise distinct and
below 8, the four single-bit terms composing `ButtonMask` are pairwise disjoint (and
`ButtonMask` is their disjunction). -/
theorem pin_masks_never_overlap (tb : TButton) (htb : tb.Valid) :
    GPIOPins = [17, 27, 4, 22, 23, 26, 16, 12] ∧
      GPIOPins.Nodup ∧
      (∀ p ∈ GPIOPins, p < 32) ∧
      GPIOPins.Pairwise (fun a b => pinMask a &&& pinMask b = 0) ∧
      (∀ p ∈ GPIOPins, pinMask p ≠ 0) ∧
      (ButtonMaskTerms tb).Pairwise (fun a b => a &&& b = 0) ∧
      ButtonMask tb = u8 ((ButtonMaskTerms tb).foldl (fun a b => a ||| b) 0) := by
  obtain ⟨h1, h2, h3, h4, h12, h13, h14, h23, h24, h34⟩ := htb
  have e1 : u8 tb.Button1 = tb.Button1 := by unfold u8; omega
  have e2 : u8 tb.Button2 = tb.Button2 := by unfold u8; omega
  have e3 : u8 tb.EncoderButton1 = tb.EncoderButton1 := by unfold u8; omega
  have e4 : u8 tb.EncoderButton2 = tb.EncoderButton2 := by unfold u8; omega
  refine ⟨rfl, by decide, by decide, by decide, by decide, ?_, ?_⟩
  · simp only [ButtonMaskTerms, e1, e2, e3, e4, List.pairwise_cons, List.mem_cons,
      List.mem_singleton, List.not_mem_nil, List.Pairwise.nil, and_true, forall_eq_or_imp,
      forall_eq, false_implies, implies_true]
    exact ⟨⟨mask_terms_disjoint _ _ h12, mask_terms_disjoint _ _ h13,
      mask_terms_disjoint _ _ h14⟩, ⟨mask_terms_disjoint _ _ h23, mask_terms_disjoint _ _ h24⟩,
      mask_terms_disjoint _ _ h34⟩
  · simp [ButtonMask, ButtonMaskTerms]

/-- Witness for C11: enumerators 0, 1, 2, 3 give the terms 1, 2, 4, 8. -/
theorem pin_masks_never_overlap_witness :
    TButton.Valid ⟨0, 1, 2, 3⟩ ∧ ButtonMaskTerms ⟨0, 1, 2, 3⟩ = [1, 2, 4, 8] ∧
      (ButtonMaskTerms ⟨0, 1, 2, 3⟩).Pairwise (fun a b => a &&& b = 0) :=
  ⟨by decide, by decide, (pin_masks_never_overlap ⟨0, 1, 2, 3⟩ (by decide)).2.2.2.2.2.1⟩

theorem shiftRight_and_one (g k : Nat) : (g >>> k) &&& 1 = (g.testBit k).toNat := by
  rw [Nat.testBit, Nat.and_comm]
  have h : 1 &&& g >>> k = (g >>> k) % 2 := by rw [Nat.and_comm]; exact Nat.and_one_is_mod _
  rw [h]
  rcases Nat.mod_two_eq_zero_or_one (g >>> k) with h0 | h1
  · simp [h0]
  · simp [h1]

theorem encoder_line (g k : Nat) (hk : k < 32) :
    (u32 g >>> k) &&& 1 = (g.testBit k).toNat := by
  rw [shiftRight_and_one, u32_testBit g k hk]

theorem nButtonState_congr (tb : TButton) (g g2 : Nat)
    (h17 : g2.testBit 17 = g.testBit 17) (h27 : g2.testBit 27 = g.testBit 27)
    (h4 : g2.testBit 4 = g.testBit 4) (h26 : g2.testBit 26 = g.testBit 26) :
    nButtonState tb (u32 g2) = nButtonState tb (u32 g) := by
  apply Nat.eq_of_testBit_eq
  intro k
  rw [nButtonState_testBit, nButtonState_testBit]
  simp only [GPIOPinButton1, GPIOPinButton2, GPIOPinEncoder1Button, GPIOPinEncoder2Button]
  rw [u32_testBit _ 17 (by omega), u32_testBit _ 27 (by omega), u32_testBit _ 4 (by omega),
    u32_testBit _ 26 (by omega), u32_testBit _ 17 (by omega), u32_testBit _ 27 (by omega),
    u32_testBit _ 4 (by omega), u32_testBit _ 26 (by omega), h17, h27, h4, h26]

/-- C14. For every word `g` returned by the bulk read, `ReadGPIOPins` passes encoder 1 the
pair (bit 22 of `g`, bit 23 of `g`) as (clock, data) and encoder 2 the pair (bit 16 of
`g`, bit 12 of `g`), each argument being 0 or 1; and a second word that agrees with `g`
on the eight configured pins gives the same arguments to `DebounceButtonState` and to
both encoders. -/
theorem ReadGPIOPins_depends_on_configured_pins (tb : TButton) (w w2 : Recorder)
    (hagree : ∀ p ∈ GPIOPins,
      (w2.samples w2.nReads).testBit p = (w.samples w.nReads).testBit p) :
    (ReadGPIOPins tb Recorder.ops w).calls.drop w.calls.length =
        [Call.ReadAll,
         Call.DebounceButtonState (nButtonState tb (u32 (w.samples w.nReads))) (ButtonMask tb),
         Call.Encoder1_ReadGPIOPins ((w.samples w.nReads).testBit 22).toNat
           ((w.samples w.nReads).testBit 23).toNat,
         Call.Encoder2_ReadGPIOPins ((w.samples w.nReads).testBit 16).toNat
           ((w.samples w.nReads).testBit 12).toNat] ∧
      (∀ c d, (Call.Encoder1_ReadGPIOPins c d ∈
            (ReadGPIOPins tb Recorder.ops w).calls.drop w.calls.length ∨
          Call.Encoder2_ReadGPIOPins c d ∈
            (ReadGPIOPins tb Recorder.ops w).calls.drop w.calls.length) →
        (c = 0 ∨ c = 1) ∧ (d = 0 ∨ d = 1)) ∧
      (ReadGPIOPins tb Recorder.ops w2).calls.drop w2.calls.length =
        (ReadGPIOPins tb Recorder.ops w).calls.drop w.calls.length := by
  have key : ∀ v : Recorder, (ReadGPIOPins tb Recorder.ops v).calls.drop v.calls.length =
        [Call.ReadAll,
         Call.DebounceButtonState (nButtonState tb (u32 (v.samples v.nReads))) (ButtonMask tb),
         Call.Encoder1_ReadGPIOPins ((v.samples v.nReads).testBit 22).toNat
           ((v.samples v.nReads).testBit 23).toNat,
         Call.Encoder2_ReadGPIOPins ((v.samples v.nReads).testBit 16).toNat
           ((v.samples v.nReads).testBit 12).toNat] := by
    intro v
    rw [ReadGPIOPins_calls]
    simp only [GPIOPinEncoder1CLK, GPIOPinEncoder1DAT, GPIOPinEncoder2CLK, GPIOPinEncoder2DAT,
      List.drop_left]
    rw [encoder_line _ 22 (by omega), encoder_line _ 23 (by omega),
      encoder_line _ 16 (by omega), encoder_line _ 12 (by omega)]
  have hb : ∀ b : Bool, b.toNat = 0 ∨ b.toNat = 1 := by decide
  refine ⟨key w, ?_, ?_⟩
  · intro c d hcd
    rw [key w] at hcd
    simp only [List.mem_cons, List.mem_singleton, List.not_mem_nil, or_false,
      Call.Encoder1_ReadGPIOPins.injEq, Call.Encoder2_ReadGPIOPins.injEq, false_or,
      reduceCtorEq] at hcd
    rcases hcd with ⟨rfl, rfl⟩ | ⟨rfl, rfl⟩
    · exact ⟨hb _, hb _⟩
    · exact ⟨hb _, hb _⟩
  · rw [key w, key w2]
    have m : ∀ p, p ∈ GPIOPins → (w2.samples w2.nReads).testBit p =
        (w.samples w.nReads).testBit p := hagree
    rw [nButtonState_congr tb _ _ (m 17 (by decide)) (m 27 (by decide)) (m 4 (by decide))
      (m 26 (by decide)), m 22 (by decide), m 23 (by decide), m 16 (by decide),
      m 12 (by decide)]

/-- Witness for C14: the words 0x00C00010 and 0xF0C00010 differ only on pins 28-31, which
are not configured. -/
theorem ReadGPIOPins_depends_on_configured_pins_witness :
    (ReadGPIOPins ⟨0, 1, 2, 3⟩ Recorder.ops ⟨fun _ => 0xF0C00010, 0, []⟩).calls.drop 0 =
      (ReadGPIOPins ⟨0, 1, 2, 3⟩ Recorder.ops ⟨fun _ => 0x00C00010, 0, []⟩).calls.drop 0 :=
  (ReadGPIOPins_depends_on_configured_pins ⟨0, 1, 2, 3⟩ ⟨fun _ => 0x00C00010, 0, []⟩
    ⟨fun _ => 0xF0C00010, 0, []⟩ (by decide)).2.2

/-! ### The poller with the modelled collaborators -/

theorem s8_Read (e : CRotaryEncoder) : s8 e.Read.1 = e.Read.1 := by
  have h : e.Read.1 = 1 ∨ e.Read.1 = -1 ∨ e.Read.1 = 0 := by
    unfold CRotaryEncoder.Read
    by_cases h1 : 0 < e.m_nDelta
    · cases e.m_bReversed <;> simp [h1]
    · by_cases h2 : e.m_nDelta < 0
      · cases e.m_bReversed <;> simp [h1, h2]
      · cases e.m_bReversed <;> simp [h1, h2]
  rcases h with h | h | h <;> rw [h] <;> decide

theorem Read_ReadGPIOPins_reversed (c d : Nat) (e : CRotaryEncoder) :
    ((e.ReadGPIOPins c d).Read.2).m_bReversed = e.m_bReversed := by
  unfold CRotaryEncoder.Read CRotaryEncoder.ReadGPIOPins
  simp only
  split_ifs <;> rfl

theorem ReadGPIOPins_poller (tb : TButton) (w : Poller) :
    ReadGPIOPins tb Poller.pinOps w =
      { samples := w.samples
        nReads := w.nReads + 1
        m_EventQueue := w.m_EventQueue
        m_Encoder_1 := w.m_Encoder_1.ReadGPIOPins
          (encoderLines TEncoder.Encoder1 (u32 (w.samples w.nReads))).1
          (encoderLines TEncoder.Encoder1 (u32 (w.samples w.nReads))).2
        m_Encoder_2 := w.m_Encoder_2.ReadGPIOPins
          (encoderLines TEncoder.Encoder2 (u32 (w.samples w.nReads))).1
          (encoderLines TEncoder.Encoder2 (u32 (w.samples w.nReads))).2
        debouncer := w.debouncer.DebounceButtonState
          (nButtonState tb (u32 (w.samples w.nReads))) (ButtonMask tb) } := rfl

theorem Update_poller (v : Poller) :
    Update Poller.updateOps v =
      { samples := v.samples
        nReads := v.nReads
        m_EventQueue := v.m_EventQueue ++
          (v.debouncer.pending.map (fun p => TEvent.Button p.1 p.2) ++
            (deltaEvents TEncoder.Encoder1 [v.m_Encoder_1.Read.1] ++
              deltaEvents TEncoder.Encoder2 [v.m_Encoder_2.Read.1]))
        m_Encoder_1 := v.m_Encoder_1.Read.2
        m_Encoder_2 := v.m_Encoder_2.Read.2
        debouncer := { v.debouncer with pending := [] } } := by
  have s1 := s8_Read v.m_Encoder_1
  have s2 := s8_Read v.m_Encoder_2
  have s0 : s8 0 = 0 := by decide
  by_cases h1 : v.m_Encoder_1.Read.1 = 0 <;> by_cases h2 : v.m_Encoder_2.Read.1 = 0 <;>
    simp [Update, Poller.updateOps, Poller.CControl_Update, deltaEvents, s1, s2, s0, h1, h2]

theorem tick_eq (tb : TButton) (w : Poller) :
    tick tb w =
      { samples := w.samples
        nReads := w.nReads + 1
        m_EventQueue := w.m_EventQueue ++
          ((w.debouncer.DebounceButtonState (nButtonState tb (u32 (w.samples w.nReads)))
              (ButtonMask tb)).pending.map (fun p => TEvent.Button p.1 p.2) ++
            (deltaEvents TEncoder.Encoder1
                [((w.encoder TEncoder.Encoder1).ReadGPIOPins
                  (encoderLines TEncoder.Encoder1 (u32 (w.samples w.nReads))).1
                  (encoderLines TEncoder.Encoder1 (u32 (w.samples w.nReads))).2).Read.1] ++
              deltaEvents TEncoder.Encoder2
                [((w.encoder TEncoder.Encoder2).ReadGPIOPins
                  (encoderLines TEncoder.Encoder2 (u32 (w.samples w.nReads))).1
                  (encoderLines TEncoder.Encoder2 (u32 (w.samples w.nReads))).2).Read.1]))
        m_Encoder_1 := ((w.encoder TEncoder.Encoder1).ReadGPIOPins
          (encoderLines TEncoder.Encoder1 (u32 (w.samples w.nReads))).1
          (encoderLines TEncoder.Encoder1 (u32 (w.samples w.nReads))).2).Read.2
        m_Encoder_2 := ((w.encoder TEncoder.Encoder2).ReadGPIOPins
          (encoderLines TEncoder.Encoder2 (u32 (w.samples w.nReads))).1
          (encoderLines TEncoder.Encoder2 (u32 (w.samples w.nReads))).2).Read.2
        debouncer :=
          { w.debouncer.DebounceButtonState (nButtonState tb (u32 (w.samples w.nReads)))
              (ButtonMask tb) with pending := [] } } := by
  unfold tick
  rw [ReadGPIOPins_poller, Update_poller]
  rfl

theorem tick_samples (tb : TButton) (w : Poller) :
    (tick tb w).samples = w.samples ∧ (tick tb w).nReads = w.nReads + 1 := by
  rw [tick_eq]
  exact ⟨rfl, rfl⟩

theorem tick_encoder (tb : TButton) (w : Poller) (enc : TEncoder) :
    (tick tb w).encoder enc =
      ((w.encoder enc).ReadGPIOPins (encoderLines enc (u32 (w.samples w.nReads))).1
        (encoderLines enc (u32 (w.samples w.nReads))).2).Read.2 := by
  rw [tick_eq]
  cases enc <;> rfl

theorem tick_debouncer (tb : TButton) (w : Poller) :
    (tick tb w).debouncer =
      { w.debouncer.DebounceButtonState (nButtonState tb (u32 (w.samples w.nReads)))
          (ButtonMask tb) with pending := [] } := by
  rw [tick_eq]

theorem encoderEvents_append (enc : TEncoder) (a b : List TEvent) :
    encoderEvents enc (a ++ b) = encoderEvents enc a ++ encoderEvents enc b := by
  unfold encoderEvents
  exact List.filter_append _ _

theorem encoderEvents_buttons (enc : TEncoder) (ps : List (Nat × Bool)) :
    encoderEvents enc (ps.map (fun p => TEvent.Button p.1 p.2)) = [] := by
  induction ps with
  | nil => rfl
  | cons p ps ih =>
    unfold encoderEvents at ih ⊢
    simp only [List.map_cons, List.filter_cons]
    exact ih

theorem encoderEvents_deltaEvents (enc x : TEncoder) (ds : List Int) :
    encoderEvents enc (deltaEvents x ds) = if x = enc then deltaEvents x ds else [] := by
  induction ds with
  | nil => simp [encoderEvents, deltaEvents]
  | cons d ds ih =>
    unfold encoderEvents deltaEvents at ih ⊢
    by_cases hd : d = 0 <;> by_cases hx : x = enc <;>
      simp [List.filterMap_cons, List.filter_cons, hd, hx] at ih ⊢ <;> exact ih

theorem tick_encoderEvents (tb : TButton) (w : Poller) (enc : TEncoder) :
    encoderEvents enc (tick tb w).m_EventQueue =
      encoderEvents enc w.m_EventQueue ++
        deltaEvents enc [((w.encoder enc).ReadGPIOPins
          (encoderLines enc (u32 (w.samples w.nReads))).1
          (encoderLines enc (u32 (w.samples w.nReads))).2).Read.1] := by
  rw [tick_eq]
  simp only [encoderEvents_append, encoderEvents_buttons, encoderEvents_deltaEvents,
    List.nil_append]
  cases enc <;> simp

theorem lineTrace_succ (tb : TButton) (enc : TEncoder) (w : Poller) (n : Nat) :
    lineTrace enc w (n + 1) =
      encoderLines enc (u32 (w.samples w.nReads)) :: lineTrace enc (tick tb w) n := by
  unfold lineTrace
  rw [List.range_succ_eq_map, List.map_cons, List.map_map, (tick_samples tb w).1,
    (tick_samples tb w).2]
  congr 1
  apply List.map_congr_left
  intro i _
  simp only [Function.comp]
  rw [Nat.add_assoc, Nat.add_comm 1 i]

theorem deltaEvents_cons (enc : TEncoder) (d : Int) (ds : List Int) :
    deltaEvents enc (d :: ds) = deltaEvents enc [d] ++ deltaEvents enc ds := by
  unfold deltaEvents
  by_cases h : d = 0 <;> simp [List.filterMap_cons, h]

theorem ticks_encoderEvents (tb : TButton) (enc : TEncoder) (n : Nat) :
    ∀ w : Poller, encoderEvents enc (ticks tb n w).m_EventQueue =
      encoderEvents enc w.m_EventQueue ++
        deltaEvents enc (deltaTrace (w.encoder enc) (lineTrace enc w n)) := by
  induction n with
  | zero =>
    intro w
    simp [ticks, lineTrace, deltaTrace, deltaEvents]
  | succ n ih =>
    intro w
    rw [ticks, ih (tick tb w), tick_encoderEvents, tick_encoder, lineTrace_succ tb, deltaTrace,
      deltaEvents_cons enc _ (deltaTrace _ _), List.append_assoc]

/-- C12. With the decoder modelled from the spec and an encoder in its constructed state:
feeding its (clock, data) lines the forward sequence 00, 01, 11, 10, 00 over five
`ReadGPIOPins`/`Update` ticks adds exactly one `Encoder` event for that encoder, with
`nDelta = +1`; the reverse sequence 00, 10, 11, 01, 00 adds exactly one, with
`nDelta = -1`; with `bEncoderReversed = true` both signs are flipped; and the interrupted
sequence 00, 01, 00 adds no `Encoder` event for it. -/
theorem quadrature_sequences_decoded (tb : TButton) (w : Poller) (enc : TEncoder) (r : Bool)
    (h0 : w.encoder enc = CRotaryEncoder.init r) :
    (lineTrace enc w 5 = [(0, 0), (0, 1), (1, 1), (1, 0), (0, 0)] →
        encoderEvents enc (ticks tb 5 w).m_EventQueue =
          encoderEvents enc w.m_EventQueue ++ [TEvent.Encoder enc (if r then -1 else 1)]) ∧
      (lineTrace enc w 5 = [(0, 0), (1, 0), (1, 1), (0, 1), (0, 0)] →
        encoderEvents enc (ticks tb 5 w).m_EventQueue =
          encoderEvents enc w.m_EventQueue ++ [TEvent.Encoder enc (if r then 1 else -1)]) ∧
      (lineTrace enc w 3 = [(0, 0), (0, 1), (0, 0)] →
        encoderEvents enc (ticks tb 3 w).m_EventQueue = encoderEvents enc w.m_EventQueue) := by
  refine ⟨?_, ?_, ?_⟩
  · intro h
    rw [ticks_encoderEvents, h0, h]
    cases r <;> cases enc <;> rfl
  · intro h
    rw [ticks_encoderEvents, h0, h]
    cases r <;> cases enc <;> rfl
  · intro h
    rw [ticks_encoderEvents, h0, h]
    cases r <;> cases enc <;> exact List.append_nil _

/-- Witness for C12: the words 0, 0x800000, 0xC00000, 0x400000, 0 put 00, 01, 11, 10, 00
on pins 22 (clock) and 23 (data) of encoder 1. -/
theorem quadrature_sequences_decoded_witness :
    encoderEvents TEncoder.Encoder1 (ticks ⟨0, 1, 2, 3⟩ 5
        ⟨fun i => [0, 0x800000, 0xC00000, 0x400000, 0].getD i 0, 0, [],
          CRotaryEncoder.init false, CRotaryEncoder.init false,
          ⟨2, fun _ => false, fun _ => 0, []⟩⟩).m_EventQueue =
      [TEvent.Encoder TEncoder.Encoder1 1] :=
  (quadrature_sequences_decoded ⟨0, 1, 2, 3⟩
    ⟨fun i => [0, 0x800000, 0xC00000, 0x400000, 0].getD i 0, 0, [],
      CRotaryEncoder.init false, CRotaryEncoder.init false,
      ⟨2, fun _ => false, fun _ => 0, []⟩⟩ TEncoder.Encoder1 false rfl).1 (by decide)

/-! ### One debounced bit over a run of samples -/

theorem bitTrace_short (N : Nat) (rs : List Bool) :
    ∀ (s : Bool) (c : Nat), c + rs.length < N → bitTrace N s c rs = [] := by
  induction rs with
  | nil => intro s c _; rfl
  | cons r rs ih =>
    intro s c h
    simp only [List.length_cons] at h
    unfold bitTrace debounceBit
    by_cases hrs : r = s
    · simp only [hrs, if_true, Option.toList, List.nil_append]
      exact ih s 0 (by omega)
    · have hN : ¬ (N ≤ c + 1) := by omega
      simp only [hrs, hN, if_false, Option.toList, List.nil_append]
      exact ih s (c + 1) (by omega)

theorem bitTrace_steady (N : Nat) (s : Bool) (m : Nat) :
    ∀ c, bitTrace N s c (List.replicate m s) = [] := by
  induction m with
  | zero => intro c; rfl
  | succ m ih =>
    intro c
    rw [List.replicate_succ]
    unfold bitTrace debounceBit
    simp only [if_true, Option.toList, List.nil_append]
    exact ih 0

theorem bitTrace_press (N : Nat) (M : Nat) :
    ∀ c, c < N → N ≤ c + M → bitTrace N false c (List.replicate M true) = [true] := by
  induction M with
  | zero => intro c h1 h2; omega
  | succ M ih =>
    intro c h1 h2
    rw [List.replicate_succ, bitTrace]
    by_cases hN : N ≤ c + 1
    · have hd : debounceBit N true false c = (true, 0, some true) := by
        simp [debounceBit, hN]
      rw [hd]
      simp only [Option.toList, List.singleton_append]
      rw [bitTrace_steady]
    · have hd : debounceBit N true false c = (false, c + 1, none) := by
        simp [debounceBit, hN]
      rw [hd]
      simp only [Option.toList, List.nil_append]
      exact ih (c + 1) (by omega) (by omega)

theorem bitTrace_toggling (N : Nat) (hN : 2 ≤ N) (rs : List Bool) :
    ∀ s : Bool, rs.Chain' (fun a b => a ≠ b) →
      bitTrace N s 0 rs = [] ∧ (rs.head? = some s → bitTrace N s 1 rs = []) := by
  induction rs with
  | nil => intro s _; exact ⟨rfl, fun _ => rfl⟩
  | cons r rs ih =>
    intro s hch
    have htail : rs.Chain' (fun a b => a ≠ b) := hch.tail
    have hN1 : ¬ (N ≤ 0 + 1) := by omega
    constructor
    · unfold bitTrace debounceBit
      by_cases hrs : r = s
      · simp only [hrs, if_true, Option.toList, List.nil_append]
        exact (ih s htail).1
      · simp only [hrs, hN1, if_false, Option.toList, List.nil_append, Nat.zero_add]
        cases rs with
        | nil => rfl
        | cons r2 rs2 =>
          have hne : r ≠ r2 := (List.chain'_cons.1 hch).1
          have h2 : r2 = s := by
            cases r <;> cases r2 <;> cases s <;> simp_all
          exact (ih s htail).2 (by simp [h2])
    · intro hhead
      have hrs : r = s := by simpa using hhead
      unfold bitTrace debounceBit
      simp only [hrs, if_true, Option.toList, List.nil_append]
      exact (ih s htail).1

/-! ### The debouncer over ticks -/

theorem buttonEvents_append (k : Nat) (a b : List TEvent) :
    buttonEvents k (a ++ b) = buttonEvents k a ++ buttonEvents k b := by
  unfold buttonEvents
  exact List.filter_append _ _

theorem buttonEvents_deltaEvents (k : Nat) (x : TEncoder) (ds : List Int) :
    buttonEvents k (deltaEvents x ds) = [] := by
  induction ds with
  | nil => rfl
  | cons d ds ih =>
    unfold buttonEvents deltaEvents at ih ⊢
    by_cases hd : d = 0 <;> simp [List.filterMap_cons, List.filter_cons, hd] at ih ⊢ <;>
      exact ih

theorem buttonEvents_pending (k : Nat) (Y : Nat → Option Bool) (L : List Nat)
    (hL : L.Nodup) :
    buttonEvents k ((L.filterMap (fun j => (Y j).map (fun b => (j, b)))).map
        (fun p => TEvent.Button p.1 p.2)) =
      if k ∈ L then (Y k).toList.map (fun b => TEvent.Button k b) else [] := by
  induction L with
  | nil => rfl
  | cons j js ih =>
    have hj : j ∉ js := (List.nodup_cons.1 hL).1
    have ih2 := ih (List.nodup_cons.1 hL).2
    unfold buttonEvents at ih2 ⊢
    by_cases hjk : j = k
    · subst hjk
      have hnot : ¬ (j ∈ js) := hj
      rw [if_neg hnot] at ih2
      cases hy : Y j with
      | none => simp [List.filterMap_cons, hy, ih2]
      | some b => simp [List.filterMap_cons, hy, List.filter_cons, ih2]
    · have hkj : ¬ (k = j) := fun e => hjk e.symm
      cases hy : Y j with
      | none =>
        simp only [List.filterMap_cons, hy, Option.map_none', List.mem_cons, hkj, false_or]
        exact ih2
      | some b =>
        simp only [List.filterMap_cons, hy, Option.map_some', List.map_cons, List.filter_cons,
          decide_eq_true_eq, hjk, if_false, List.mem_cons, hkj, false_or]
        exact ih2

theorem ButtonMask_testBit_lt (tb : TButton) (k : Nat) (h : (ButtonMask tb).testBit k = true) :
    k < 8 := by
  rw [ButtonMask_testBit] at h
  simp only [Bool.and_eq_true, decide_eq_true_eq] at h
  exact h.1

theorem DebounceButtonState_pending (nState nMask : Nat) (d : Debouncer) (k : Nat)
    (hk : k < 8) (hm : nMask.testBit k = true) (hp : d.pending = []) :
    buttonEvents k ((d.DebounceButtonState nState nMask).pending.map
        (fun p => TEvent.Button p.1 p.2)) =
      (debounceBit d.nDebounce (nState.testBit k) (d.state k) (d.count k)).2.2.toList.map
        (fun b => TEvent.Button k b) := by
  have hfun : (fun j => if nMask.testBit j = true then
        (debounceBit d.nDebounce (nState.testBit j) (d.state j) (d.count j)).2.2.map
          (fun b => (j, b))
      else none) =
      (fun j => (if nMask.testBit j = true then
        (debounceBit d.nDebounce (nState.testBit j) (d.state j) (d.count j)).2.2
      else none).map (fun b => (j, b))) := by
    funext j
    split_ifs <;> rfl
  simp only [Debouncer.DebounceButtonState, hp, List.nil_append]
  rw [hfun, buttonEvents_pending k _ (List.range 8) (List.nodup_range 8)]
  rw [if_pos (List.mem_range.2 hk), if_pos hm]

theorem tick_buttonEvents (tb : TButton) (w : Poller) (k : Nat)
    (hm : (ButtonMask tb).testBit k = true) (hp : w.debouncer.pending = []) :
    buttonEvents k (tick tb w).m_EventQueue =
      buttonEvents k w.m_EventQueue ++
        (debounceBit w.debouncer.nDebounce
          ((nButtonState tb (u32 (w.samples w.nReads))).testBit k)
          (w.debouncer.state k) (w.debouncer.count k)).2.2.toList.map
            (fun b => TEvent.Button k b) := by
  rw [tick_eq]
  simp only [buttonEvents_append, buttonEvents_deltaEvents, List.append_nil]
  rw [DebounceButtonState_pending _ _ _ k (ButtonMask_testBit_lt tb k hm) hm hp]

theorem tick_debouncer_bit (tb : TButton) (w : Poller) (k : Nat)
    (hm : (ButtonMask tb).testBit k = true) :
    (tick tb w).debouncer.nDebounce = w.debouncer.nDebounce ∧
      (tick tb w).debouncer.pending = [] ∧
      (tick tb w).debouncer.state k =
        (debounceBit w.debouncer.nDebounce
          ((nButtonState tb (u32 (w.samples w.nReads))).testBit k)
          (w.debouncer.state k) (w.debouncer.count k)).1 ∧
      (tick tb w).debouncer.count k =
        (debounceBit w.debouncer.nDebounce
          ((nButtonState tb (u32 (w.samples w.nReads))).testBit k)
          (w.debouncer.state k) (w.debouncer.count k)).2.1 := by
  rw [tick_debouncer]
  have hk := ButtonMask_testBit_lt tb k hm
  simp [Debouncer.DebounceButtonState, hk, hm]

theorem rawTrace_succ (tb : TButton) (k : Nat) (w : Poller) (n : Nat) :
    rawTrace tb k w (n + 1) =
      (nButtonState tb (u32 (w.samples w.nReads))).testBit k :: rawTrace tb k (tick tb w) n := by
  unfold rawTrace
  rw [List.range_succ_eq_map, List.map_cons, List.map_map, (tick_samples tb w).1,
    (tick_samples tb w).2]
  congr 1
  apply List.map_congr_left
  intro i _
  simp only [Function.comp]
  rw [Nat.add_assoc, Nat.add_comm 1 i]

theorem ticks_buttonEvents (tb : TButton) (k : Nat) (hm : (ButtonMask tb).testBit k = true)
    (n : Nat) :
    ∀ w : Poller, w.debouncer.pending = [] →
      buttonEvents k (ticks tb n w).m_EventQueue =
        buttonEvents k w.m_EventQueue ++
          (bitTrace w.debouncer.nDebounce (w.debouncer.state k) (w.debouncer.count k)
            (rawTrace tb k w n)).map (fun b => TEvent.Button k b) := by
  induction n with
  | zero =>
    intro w _
    simp [ticks, rawTrace, bitTrace]
  | succ n ih =>
    intro w hp
    obtain ⟨hN, hp2, hs, hc⟩ := tick_debouncer_bit tb w k hm
    rw [ticks, ih (tick tb w) hp2, tick_buttonEvents tb w k hm hp, hN, hs, hc,
      rawTrace_succ tb, bitTrace, List.map_append, List.append_assoc]

/-- C13. With the debouncer modelled from the spec (debounce length `N ≥ 1`) and a button
bit `k` inside `ButtonMask` that is at rest released: when the raw bit is pressed and
held for `M ≥ N` ticks, those ticks add exactly one event for button `k`, a press,
however long the bit is held; and a raw bit that toggles every tick adds no event for
button `k`, both when it does so for fewer than `N` ticks and, if `N ≥ 2`, for any number
of ticks. -/
theorem debounce_press_and_noise (tb : TButton) (w : Poller) (k N M K : Nat)
    (hk : (ButtonMask tb).testBit k = true)
    (hN : w.debouncer.nDebounce = N) (hN1 : 1 ≤ N)
    (hrest : w.debouncer.state k = false ∧ w.debouncer.count k = 0 ∧
      w.debouncer.pending = []) :
    (N ≤ M → rawTrace tb k w M = List.replicate M true →
        buttonEvents k (ticks tb M w).m_EventQueue =
          buttonEvents k w.m_EventQueue ++ [TEvent.Button k true]) ∧
      ((rawTrace tb k w K).Chain' (fun a b => a ≠ b) → (K < N ∨ 2 ≤ N) →
        buttonEvents k (ticks tb K w).m_EventQueue = buttonEvents k w.m_EventQueue) := by
  obtain ⟨hs, hc, hp⟩ := hrest
  constructor
  · intro hM hraw
    rw [ticks_buttonEvents tb k hk M w hp, hN, hs, hc, hraw,
      bitTrace_press N M 0 (by omega) (by omega)]
    rfl
  · intro hch hcase
    rw [ticks_buttonEvents tb k hk K w hp, hN, hs, hc]
    have hnil : bitTrace N false 0 (rawTrace tb k w K) = [] := by
      rcases hcase with h | h
      · apply bitTrace_short
        simp only [rawTrace, List.length_map, List.length_range]
        omega
      · exact (bitTrace_toggling N h _ false hch).1
    rw [hnil]
    exact List.append_nil _

/-- Witness for C13: `N = 2`, Button1 is bit 0 and is read from pin 17; the word 0x20000
holds pin 17 high for three ticks. -/
theorem debounce_press_and_noise_witness :
    buttonEvents 0 (ticks ⟨0, 1, 2, 3⟩ 3
        ⟨fun _ => 0x20000, 0, [], CRotaryEncoder.init false, CRotaryEncoder.init false,
          ⟨2, fun _ => false, fun _ => 0, []⟩⟩).m_EventQueue =
      [TEvent.Button 0 true] :=
  (debounce_press_and_noise ⟨0, 1, 2, 3⟩
    ⟨fun _ => 0x20000, 0, [], CRotaryEncoder.init false, CRotaryEncoder.init false,
      ⟨2, fun _ => false, fun _ => 0, []⟩⟩ 0 2 3 0 (by decide) rfl (by decide)
    ⟨rfl, rfl, rfl⟩).1 (by decide) (by decide)

end SimpleEncoder

/-! # Properties of the FluidSynth utility functions -/

namespace FluidSys

/-! ### The delimiter test -/

theorem matchDelim_zero (dl : List Nat) : matchDelim 0 dl = false := by
  induction dl with
  | nil => rfl
  | cons d ds ih =>
    unfold matchDelim
    by_cases h : d = 0
    · simp [h]
    · have : ¬ (0 = d) := fun e => h e.symm
      simp [h, this, ih]

theorem matchDelim_iff_mem (c : Nat) (dl : List Nat) :
    matchDelim c dl = true ↔ c ∈ cstr dl 0 := by
  unfold cstr
  rw [List.drop_zero]
  induction dl with
  | nil => simp [matchDelim]
  | cons d ds ih =>
    unfold matchDelim
    by_cases h : d = 0
    · simp [h]
    · by_cases hc : c = d
      · simp [h, hc]
      · simp [h, hc, ih]

/-- The C string at the start of a list ends where the first NUL (or the list) ends. -/
theorem takeWhile_nonzero_append (a b : List Nat) (ha : ∀ x ∈ a, x ≠ 0) (hb : b.headD 0 = 0) :
    (a ++ b).takeWhile (fun c => c != 0) = a := by
  rw [List.takeWhile_append_of_pos (by intro x hx; simpa using ha x hx)]
  cases b with
  | nil => simp
  | cons y ys =>
    simp only [List.headD_cons] at hb
    subst hb
    simp

/-! ### The two scanning loops -/

theorem skipDelims_none (dl l : List Nat) (s : Nat) (h : skipDelims dl l s = none) :
    ∃ pre rest, l = pre ++ rest ∧ (∀ x ∈ pre, x ≠ 0 ∧ matchDelim x dl = true) ∧
      rest.headD 0 = 0 := by
  induction l generalizing s with
  | nil => exact ⟨[], [], rfl, by simp, rfl⟩
  | cons c cs ih =>
    unfold skipDelims at h
    by_cases hc : c = 0
    · exact ⟨[], c :: cs, rfl, by simp, by simp [hc]⟩
    · by_cases hm : matchDelim c dl = true
      · simp only [hc, hm, if_true, if_false] at h
        obtain ⟨pre, rest, e, hp, hr⟩ := ih (s + 1) h
        refine ⟨c :: pre, rest, by simp [e], ?_, hr⟩
        intro x hx
        rcases List.mem_cons.1 hx with rfl | hx
        · exact ⟨hc, hm⟩
        · exact hp x hx
      · simp [hc, hm] at h

theorem skipDelims_some (dl l : List Nat) (s t : Nat) (h : skipDelims dl l s = some t) :
    ∃ pre c rest, l = pre ++ c :: rest ∧ t = s + pre.length ∧
      (∀ x ∈ pre, x ≠ 0 ∧ matchDelim x dl = true) ∧ c ≠ 0 ∧ matchDelim c dl = false := by
  induction l generalizing s with
  | nil => simp [skipDelims] at h
  | cons c cs ih =>
    unfold skipDelims at h
    by_cases hc : c = 0
    · simp [hc] at h
    · by_cases hm : matchDelim c dl = true
      · simp only [hc, hm, if_true, if_false] at h
        obtain ⟨pre, c2, rest, e, ht, hp, h0, hd⟩ := ih (s + 1) h
        refine ⟨c :: pre, c2, rest, by simp [e], by simp [ht]; omega, ?_, h0, hd⟩
        intro x hx
        rcases List.mem_cons.1 hx with rfl | hx
        · exact ⟨hc, hm⟩
        · exact hp x hx
      · simp only [hc, hm, if_false] at h
        have hm2 : matchDelim c dl = false := by simpa using hm
        exact ⟨[], c, cs, rfl, by simpa using (Option.some.inj h).symm, by simp, hc, hm2⟩

theorem scanToken_none (dl l : List Nat) (s : Nat) (h : scanToken dl l s = none) :
    ∃ run rest, l = run ++ rest ∧ (∀ x ∈ run, x ≠ 0 ∧ matchDelim x dl = false) ∧
      rest.headD 0 = 0 := by
  induction l generalizing s with
  | nil => exact ⟨[], [], rfl, by simp, rfl⟩
  | cons c cs ih =>
    unfold scanToken at h
    by_cases hc : c = 0
    · exact ⟨[], c :: cs, rfl, by simp, by simp [hc]⟩
    · by_cases hm : matchDelim c dl = true
      · simp [hc, hm] at h
      · simp only [hc, hm, if_false] at h
        have hm2 : matchDelim c dl = false := by simpa using hm
        obtain ⟨run, rest, e, hp, hr⟩ := ih (s + 1) h
        refine ⟨c :: run, rest, by simp [e], ?_, hr⟩
        intro x hx
        rcases List.mem_cons.1 hx with rfl | hx
        · exact ⟨hc, hm2⟩
        · exact hp x hx

theorem scanToken_some (dl l : List Nat) (s e : Nat) (h : scanToken dl l s = some e) :
    ∃ run d rest, l = run ++ d :: rest ∧ e = s + run.length ∧
      (∀ x ∈ run, x ≠ 0 ∧ matchDelim x dl = false) ∧ d ≠ 0 ∧ matchDelim d dl = true := by
  induction l generalizing s with
  | nil => simp [scanToken] at h
  | cons c cs ih =>
    unfold scanToken at h
    by_cases hc : c = 0
    · simp [hc] at h
    · by_cases hm : matchDelim c dl = true
      · simp only [hc, hm, if_true, if_false] at h
        exact ⟨[], c, cs, rfl, by simpa using (Option.some.inj h).symm, by simp, hc, hm⟩
      · simp only [hc, hm, if_false] at h
        have hm2 : matchDelim c dl = false := by simpa using hm
        obtain ⟨run, d, rest, e2, ht, hp, h0, hd⟩ := ih (s + 1) h
        refine ⟨c :: run, d, rest, by simp [e2], by simp [ht]; omega, ?_, h0, hd⟩
        intro x hx
        rcases List.mem_cons.1 hx with rfl | hx
        · exact ⟨hc, hm2⟩
        · exact hp x hx

/-! ### One call, read off a decomposition of the buffer -/

theorem drop_past_token_start (front pre : List Nat) (c : Nat) (rest : List Nat) :
    (front ++ (pre ++ c :: rest)).drop (front.length + pre.length + 1) = rest := by
  have h1 : front ++ (pre ++ c :: rest) = (front ++ pre ++ [c]) ++ rest := by simp
  have h2 : front.length + pre.length + 1 = (front ++ pre ++ [c]).length := by
    simp only [List.length_append, List.length_singleton]
  rw [h1, h2]
  exact List.drop_left _ _

theorem set_at_token_end (front pre tok : List Nat) (d : Nat) (rest : List Nat) :
    (front ++ (pre ++ (tok ++ d :: rest))).set (front.length + pre.length + tok.length) 0 =
      front ++ (pre ++ (tok ++ 0 :: rest)) := by
  rw [List.set_append_right _ _ (by omega)]
  rw [List.set_append_right _ _ (by omega)]
  rw [List.set_append_right _ _ (by omega)]
  have : front.length + pre.length + tok.length - front.length - pre.length - tok.length = 0 := by
    omega
  rw [this]
  rfl

theorem fluid_strtok_cases (buf : List Nat) (p : Nat) (dl : List Nat) (hd : dl.headD 0 ≠ 0) :
    (∃ pre rest, buf.drop p = pre ++ rest ∧ (∀ x ∈ pre, x ≠ 0 ∧ matchDelim x dl = true) ∧
        rest.headD 0 = 0 ∧
        fluid_strtok buf (some (some p)) (some dl) = ⟨none, none, buf, false⟩) ∨
    (∃ front pre tok rest, buf = front ++ (pre ++ (tok ++ rest)) ∧ front.length = p ∧
        (∀ x ∈ pre, x ≠ 0 ∧ matchDelim x dl = true) ∧ tok ≠ [] ∧
        (∀ x ∈ tok, x ≠ 0 ∧ matchDelim x dl = false) ∧ rest.headD 0 = 0 ∧
        fluid_strtok buf (some (some p)) (some dl) =
          ⟨some (p + pre.length), none, buf, false⟩) ∨
    (∃ front pre tok d rest, buf = front ++ (pre ++ (tok ++ d :: rest)) ∧ front.length = p ∧
        (∀ x ∈ pre, x ≠ 0 ∧ matchDelim x dl = true) ∧ tok ≠ [] ∧
        (∀ x ∈ tok, x ≠ 0 ∧ matchDelim x dl = false) ∧ d ≠ 0 ∧ matchDelim d dl = true ∧
        fluid_strtok buf (some (some p)) (some dl) =
          ⟨some (p + pre.length), some (p + pre.length + tok.length + 1),
            front ++ (pre ++ (tok ++ 0 :: rest)), false⟩) := by
  have hmain : fluid_strtok buf (some (some p)) (some dl) =
      match skipDelims dl (buf.drop p) p with
      | none => ⟨none, none, buf, false⟩
      | some token =>
        match scanToken dl (buf.drop (token + 1)) (token + 1) with
        | some e => ⟨some token, some (e + 1), buf.set e 0, false⟩
        | none => ⟨some token, none, buf, false⟩ := by
    simp only [fluid_strtok]
    rw [if_neg hd]
  rw [hmain]
  cases hs : skipDelims dl (buf.drop p) p with
  | none =>
    obtain ⟨pre, rest, e, hp, hr⟩ := skipDelims_none dl _ p hs
    exact Or.inl ⟨pre, rest, e, hp, hr, rfl⟩
  | some t =>
    obtain ⟨pre, c, rest0, e, ht, hp, hc0, hcd⟩ := skipDelims_some dl _ p t hs
    have hlen : p ≤ buf.length := by
      by_contra hcon
      have : buf.drop p = [] := List.drop_eq_nil_of_le (by omega)
      rw [this] at e
      simp at e
    obtain ⟨front, hbuf, hfl⟩ : ∃ front, buf = front ++ (pre ++ c :: rest0) ∧ front.length = p :=
      ⟨buf.take p, by rw [← e, List.take_append_drop], by simp [hlen]⟩
    subst hbuf
    subst hfl
    subst ht
    clear hmain hs e hlen
    right
    simp only [drop_past_token_start]
    cases hsc : scanToken dl rest0 (front.length + pre.length + 1) with
    | none =>
      obtain ⟨run, rest, e2, hrun, hr⟩ := scanToken_none dl _ _ hsc
      subst e2
      refine Or.inl ⟨front, pre, c :: run, rest, by simp, rfl, hp, by simp, ?_, hr, rfl⟩
      intro x hx
      rcases List.mem_cons.1 hx with rfl | hx
      · exact ⟨hc0, hcd⟩
      · exact hrun x hx
    | some e =>
      obtain ⟨run, d, rest, e2, he, hrun, hd0, hdd⟩ := scanToken_some dl _ _ _ hsc
      subst e2
      subst he
      refine Or.inr ⟨front, pre, c :: run, d, rest, by simp, rfl, hp, by simp, ?_, hd0, hdd, ?_⟩
      · intro x hx
        rcases List.mem_cons.1 hx with rfl | hx
        · exact ⟨hc0, hcd⟩
        · exact hrun x hx
      · have h1 : front.length + pre.length + 1 + run.length =
            front.length + pre.length + (c :: run).length := by simp; omega
        have h2 : (front ++ (pre ++ c :: (run ++ d :: rest))) =
            (front ++ (pre ++ ((c :: run) ++ d :: rest))) := by simp
        simp only [h1, h2, set_at_token_end]

/-! ### Reading the buffer around a token -/

theorem cstr_append_left (front rest : List Nat) :
    cstr (front ++ rest) front.length = rest.takeWhile (fun c => c != 0) := by
  unfold cstr
  rw [List.drop_left]

theorem cstr_token (front pre tok rest : List Nat) (ht : ∀ x ∈ tok, x ≠ 0)
    (hr : rest.headD 0 = 0) :
    cstr (front ++ (pre ++ (tok ++ rest))) (front.length + pre.length) = tok := by
  have h := cstr_append_left (front ++ pre) (tok ++ rest)
  rw [List.length_append, List.append_assoc] at h
  rw [h]
  exact takeWhile_nonzero_append tok rest ht hr

theorem cstr_after_delim (front pre tok : List Nat) (d : Nat) (rest : List Nat) :
    cstr (front ++ (pre ++ (tok ++ d :: rest))) (front.length + pre.length + tok.length + 1) =
      rest.takeWhile (fun c => c != 0) := by
  have h := cstr_append_left (front ++ pre ++ tok ++ [d]) rest
  simp only [List.length_append, List.append_assoc, List.length_singleton,
    List.singleton_append] at h
  rw [← h]
  congr 1
  omega

theorem getD_token_start (front pre rest : List Nat) :
    (front ++ (pre ++ rest)).getD (front.length + pre.length) 0 = rest.headD 0 := by
  rw [← List.append_assoc]
  rw [List.getD_append_right _ _ _ _ (by simp)]
  cases rest <;> simp

theorem getD_token_end (front pre tok rest : List Nat) :
    (front ++ (pre ++ (tok ++ rest))).getD (front.length + pre.length + tok.length) 0 =
      rest.headD 0 := by
  have h := getD_token_start (front ++ pre) tok rest
  simp only [List.length_append, List.append_assoc] at h
  exact h

theorem getD_mem_pre (front pre rest : List Nat) (j : Nat) (h1 : front.length ≤ j)
    (h2 : j < front.length + pre.length) :
    (front ++ (pre ++ rest)).getD j 0 ∈ pre := by
  rw [List.getD_append_right _ _ _ _ h1, List.getD_append _ _ _ _ (by omega)]
  rw [List.getD_eq_getElem _ _ (by omega)]
  exact List.getElem_mem _

/-! ### Splitting on delimiters -/

theorem splitTokens_nil (dl : List Nat) : splitTokens dl [] = [] := by
  simp [splitTokens, List.splitOnP_nil]

theorem splitTokens_cons_delim (dl : List Nat) (c : Nat) (s : List Nat)
    (hc : c ∈ cstr dl 0) : splitTokens dl (c :: s) = splitTokens dl s := by
  simp [splitTokens, List.splitOnP_cons, hc]

theorem splitTokens_append_delims (dl pre s : List Nat) (hp : ∀ x ∈ pre, x ∈ cstr dl 0) :
    splitTokens dl (pre ++ s) = splitTokens dl s := by
  induction pre with
  | nil => rfl
  | cons c cs ih =>
    rw [List.cons_append, splitTokens_cons_delim dl c _ (hp c (List.mem_cons_self _ _))]
    exact ih (fun x hx => hp x (List.mem_cons_of_mem _ hx))

theorem splitTokens_token_end (dl tok : List Nat) (hne : tok ≠ [])
    (ht : ∀ x ∈ tok, x ∉ cstr dl 0) : splitTokens dl tok = [tok] := by
  unfold splitTokens
  rw [List.splitOnP_eq_single _ _ (by intro x hx; simpa using ht x hx)]
  cases tok with
  | nil => exact absurd rfl hne
  | cons a as => simp

theorem splitTokens_token_sep (dl tok : List Nat) (d : Nat) (s : List Nat) (hne : tok ≠ [])
    (ht : ∀ x ∈ tok, x ∉ cstr dl 0) (hd : d ∈ cstr dl 0) :
    splitTokens dl (tok ++ d :: s) = tok :: splitTokens dl s := by
  unfold splitTokens
  rw [List.splitOnP_first _ _ (by intro x hx; simpa using ht x hx) d (by simpa using hd)]
  cases tok with
  | nil => exact absurd rfl hne
  | cons a as => simp

theorem strtokAll_null (dl : List Nat) (fuel : Nat) (buf : List Nat) (hd : dl.headD 0 ≠ 0) :
    strtokAll dl (fuel + 1) buf none = some [] := by
  simp only [strtokAll, fluid_strtok]
  rw [if_neg hd]

theorem strtokAll_spec (dl : List Nat) (hd : dl.headD 0 ≠ 0) (fuel : Nat) :
    ∀ (buf : List Nat) (p : Nat), 1 ≤ fuel → buf.length + 2 ≤ fuel + p →
      strtokAll dl fuel buf (some p) = some (splitTokens dl (cstr buf p)) := by
  induction fuel with
  | zero =>
    intro buf p h1 _
    exact absurd h1 (by decide)
  | succ fuel ih =>
    intro buf p _ hf
    rw [strtokAll]
    rcases fluid_strtok_cases buf p dl hd with
      ⟨pre, rest, e, hp, hr, hres⟩ | ⟨front, pre, tok, rest, e, hfl, hp, hne, ht, hr, hres⟩ |
      ⟨front, pre, tok, d, rest, e, hfl, hp, hne, ht, hd0, hdd, hres⟩
    · simp only [hres]
      have hc : cstr buf p = pre := by
        unfold cstr
        rw [e]
        exact takeWhile_nonzero_append pre rest (fun x hx => (hp x hx).1) hr
      rw [hc]
      have := splitTokens_append_delims dl pre []
        (fun x hx => (matchDelim_iff_mem x dl).1 (hp x hx).2)
      rw [List.append_nil] at this
      rw [this, splitTokens_nil]
    · simp only [hres]
      have hlen : 1 ≤ tok.length := List.length_pos.2 hne
      have hbl : buf.length = front.length + (pre.length + (tok.length + rest.length)) := by
        rw [e]; simp
      obtain ⟨f2, hf2⟩ : ∃ f2, fuel = f2 + 1 := ⟨fuel - 1, by omega⟩
      rw [hf2, strtokAll_null dl f2 buf hd]
      have hc : cstr buf p = pre ++ tok := by
        rw [e, ← hfl, cstr_append_left, ← List.append_assoc]
        apply takeWhile_nonzero_append _ _ _ hr
        intro x hx
        rcases List.mem_append.1 hx with h | h
        · exact (hp x h).1
        · exact (ht x h).1
      have ht2 : cstr buf (p + pre.length) = tok := by
        rw [e, ← hfl]
        exact cstr_token front pre tok rest (fun x hx => (ht x hx).1) hr
      rw [hc, ht2, splitTokens_append_delims dl pre tok
        (fun x hx => (matchDelim_iff_mem x dl).1 (hp x hx).2)]
      rw [splitTokens_token_end dl tok hne]
      · rfl
      · intro x hx hmem
        have := (matchDelim_iff_mem x dl).2 hmem
        rw [(ht x hx).2] at this
        exact absurd this (by decide)
    · simp only [hres]
      have hlen : 1 ≤ tok.length := List.length_pos.2 hne
      have hbl : buf.length = front.length + (pre.length + (tok.length + (rest.length + 1))) := by
        rw [e]; simp
      have hdnot : ∀ x ∈ tok, x ∉ cstr dl 0 := by
        intro x hx hmem
        have := (matchDelim_iff_mem x dl).2 hmem
        rw [(ht x hx).2] at this
        exact absurd this (by decide)
      rw [ih _ _ (by omega) (by simp; omega)]
      have hc : cstr buf p =
          pre ++ (tok ++ d :: rest.takeWhile (fun c => c != 0)) := by
        rw [e, ← hfl, cstr_append_left]
        rw [List.takeWhile_append_of_pos (by intro x hx; simpa using (hp x hx).1)]
        rw [List.takeWhile_append_of_pos (by intro x hx; simpa using (ht x hx).1)]
        rw [List.takeWhile_cons_of_pos (by simpa using hd0)]
      have ht2 : cstr (front ++ (pre ++ (tok ++ 0 :: rest))) (p + pre.length) = tok := by
        rw [← hfl]
        exact cstr_token front pre tok (0 :: rest) (fun x hx => (ht x hx).1) rfl
      have hn : cstr (front ++ (pre ++ (tok ++ 0 :: rest))) (p + pre.length + tok.length + 1) =
          rest.takeWhile (fun c => c != 0) := by
        rw [← hfl]
        exact cstr_after_delim front pre tok 0 rest
      rw [hc, ht2, hn, splitTokens_append_delims dl pre _
        (fun x hx => (matchDelim_iff_mem x dl).1 (hp x hx).2)]
      rw [splitTokens_token_sep dl tok d _ hne hdnot ((matchDelim_iff_mem d dl).1 hdd)]
      rfl

/-! ### Facts about one call -/

theorem headD_mem_of_ne_nil (l rest : List Nat) (h : l ≠ []) : (l ++ rest).headD 0 ∈ l := by
  cases l with
  | nil => exact absurd rfl h
  | cons a as => simp

theorem head?_eq_headD_append (l rest : List Nat) (h : l ≠ []) :
    l.head? = some ((l ++ rest).headD 0) := by
  cases l with
  | nil => exact absurd rfl h
  | cons a as => simp

theorem not_mem_delim_of_matchDelim_false (dl : List Nat) (x : Nat)
    (h : matchDelim x dl = false) : x ∉ cstr dl 0 := by
  intro hmem
  have := (matchDelim_iff_mem x dl).2 hmem
  rw [h] at this
  exact absurd this (by decide)

/-- A call that returns NULL leaves `*str` NULL and the buffer as it was. -/
theorem strtok_null_facts (delim buf : List Nat) (v : Option Nat) (hd : delim.headD 0 ≠ 0)
    (h : (fluid_strtok buf (some v) (some delim)).ret = none) :
    (fluid_strtok buf (some v) (some delim)).str = none ∧
      (fluid_strtok buf (some v) (some delim)).buf = buf := by
  cases v with
  | none =>
    simp only [fluid_strtok]
    rw [if_neg hd]
    exact ⟨rfl, rfl⟩
  | some p =>
    rcases fluid_strtok_cases buf p delim hd with
      ⟨pre, rest, e, hp, hr, hres⟩ | ⟨front, pre, tok, rest, e, hfl, hp, hne, ht, hr, hres⟩ |
      ⟨front, pre, tok, d, rest, e, hfl, hp, hne, ht, hd0, hdd, hres⟩
    · rw [hres]; exact ⟨rfl, rfl⟩
    · rw [hres] at h; exact absurd h (by simp)
    · rw [hres] at h; exact absurd h (by simp)

/-- A call that returns a token: where the token starts, what it holds, and what the call
did to the buffer and to `*str`. -/
theorem strtok_token_facts (delim buf : List Nat) (v : Option Nat) (tok : Nat)
    (hd : delim.headD 0 ≠ 0)
    (h : (fluid_strtok buf (some v) (some delim)).ret = some tok) :
    ∃ p, v = some p ∧ p ≤ tok ∧
      (∀ j, p ≤ j → j < tok → buf.getD j 0 ∈ cstr delim 0) ∧
      buf.getD tok 0 ≠ 0 ∧ buf.getD tok 0 ∉ cstr delim 0 ∧
      cstr (fluid_strtok buf (some v) (some delim)).buf tok ≠ [] ∧
      (cstr (fluid_strtok buf (some v) (some delim)).buf tok).head? = some (buf.getD tok 0) ∧
      (∀ c ∈ cstr (fluid_strtok buf (some v) (some delim)).buf tok, c ≠ 0 ∧ c ∉ cstr delim 0) ∧
      ((buf.getD (tok + (cstr (fluid_strtok buf (some v) (some delim)).buf tok).length) 0 = 0 ∧
          (fluid_strtok buf (some v) (some delim)).buf = buf ∧
          (fluid_strtok buf (some v) (some delim)).str = none) ∨
        (buf.getD (tok + (cstr (fluid_strtok buf (some v) (some delim)).buf tok).length) 0 ≠ 0 ∧
          buf.getD (tok + (cstr (fluid_strtok buf (some v) (some delim)).buf tok).length) 0
            ∈ cstr delim 0 ∧
          tok + (cstr (fluid_strtok buf (some v) (some delim)).buf tok).length < buf.length ∧
          (fluid_strtok buf (some v) (some delim)).buf =
            buf.set (tok + (cstr (fluid_strtok buf (some v) (some delim)).buf tok).length) 0 ∧
          (fluid_strtok buf (some v) (some delim)).str =
            some (tok + (cstr (fluid_strtok buf (some v) (some delim)).buf tok).length + 1))) := by
  cases v with
  | none =>
    simp only [fluid_strtok] at h
    rw [if_neg hd] at h
    exact absurd h (by simp)
  | some p =>
    refine ⟨p, rfl, ?_⟩
    rcases fluid_strtok_cases buf p delim hd with
      ⟨pre, rest, e, hp, hr, hres⟩ | ⟨front, pre, tl, rest, e, hfl, hp, hne, ht, hr, hres⟩ |
      ⟨front, pre, tl, d, rest, e, hfl, hp, hne, ht, hd0, hdd, hres⟩
    · rw [hres] at h; exact absurd h (by simp)
    · rw [hres] at h ⊢
      have htok : tok = front.length + pre.length := by
        rw [hfl]; exact (Option.some.inj h).symm
      subst htok
      subst e
      subst hfl
      have hc : cstr (front ++ (pre ++ (tl ++ rest))) (front.length + pre.length) = tl :=
        cstr_token front pre tl rest (fun x hx => (ht x hx).1) hr
      have hstart : (front ++ (pre ++ (tl ++ rest))).getD (front.length + pre.length) 0 =
          (tl ++ rest).headD 0 := getD_token_start front pre (tl ++ rest)
      have hmem : (tl ++ rest).headD 0 ∈ tl := headD_mem_of_ne_nil tl rest hne
      simp only [hc, hstart]
      refine ⟨by omega, ?_, (ht _ hmem).1, not_mem_delim_of_matchDelim_false _ _ (ht _ hmem).2,
        hne, head?_eq_headD_append tl rest hne, ?_, Or.inl ⟨?_, by trivial, by trivial⟩⟩
      · intro j h1 h2
        exact (matchDelim_iff_mem _ _).1 (hp _ (getD_mem_pre front pre _ j h1 h2)).2
      · intro c hcm
        exact ⟨(ht c hcm).1, not_mem_delim_of_matchDelim_false _ _ (ht c hcm).2⟩
      · rw [getD_token_end]; exact hr
    · rw [hres] at h ⊢
      have htok : tok = front.length + pre.length := by
        rw [hfl]; exact (Option.some.inj h).symm
      subst htok
      subst e
      subst hfl
      have hc : cstr (front ++ (pre ++ (tl ++ 0 :: rest))) (front.length + pre.length) = tl :=
        cstr_token front pre tl (0 :: rest) (fun x hx => (ht x hx).1) rfl
      have hstart : (front ++ (pre ++ (tl ++ d :: rest))).getD (front.length + pre.length) 0 =
          (tl ++ d :: rest).headD 0 := getD_token_start front pre (tl ++ d :: rest)
      have hmem : (tl ++ d :: rest).headD 0 ∈ tl := headD_mem_of_ne_nil tl _ hne
      have hend : (front ++ (pre ++ (tl ++ d :: rest))).getD
          (front.length + pre.length + tl.length) 0 = d := by
        rw [getD_token_end]; rfl
      simp only [hc, hstart, hend]
      refine ⟨by omega, ?_, (ht _ hmem).1, not_mem_delim_of_matchDelim_false _ _ (ht _ hmem).2,
        hne, head?_eq_headD_append tl _ hne, ?_,
        Or.inr ⟨hd0, (matchDelim_iff_mem _ _).1 hdd, ?_, ?_, by trivial⟩⟩
      · intro j h1 h2
        exact (matchDelim_iff_mem _ _).1 (hp _ (getD_mem_pre front pre _ j h1 h2)).2
      · intro c hcm
        exact ⟨(ht c hcm).1, not_mem_delim_of_matchDelim_false _ _ (ht c hcm).2⟩
      · simp; omega
      · exact (set_at_token_end front pre tl d rest).symm

theorem getD_set_ne (buf : List Nat) (e i : Nat) (h : (buf.set e 0).getD i 0 ≠ buf.getD i 0) :
    i = e := by
  by_contra hne
  apply h
  simp only [List.getD_eq_getElem?_getD]
  rw [List.getElem?_set_ne (fun h2 => hne h2.symm)]

/-- C3. For every source string (the C string at offset `p` of `buf`) and every non-empty
delimiter string, calling `fluid_strtok` on the same string pointer until it returns NULL
reaches the NULL return (any `fuel ≥ buf.length + 2` calls suffice) and returns, in order,
exactly the tokens of the original string split on the delimiter characters with empty
pieces dropped. -/
theorem fluid_strtok_tokenizes (delim buf : List Nat) (p fuel : Nat)
    (hd : delim.headD 0 ≠ 0) (hf : buf.length + 2 ≤ fuel) :
    strtokAll delim fuel buf (some p) = some (splitTokens delim (cstr buf p)) :=
  strtokAll_spec delim hd fuel buf p (by omega) (by omega)

/-- Witness for C3: the string ",;ab,cd;;e," split on ",;" gives "ab", "cd", "e". -/
theorem fluid_strtok_tokenizes_witness :
    strtokAll [44, 59] 13 [44, 59, 97, 98, 44, 99, 100, 59, 59, 101, 44] (some 0) =
      some [[97, 98], [99, 100], [101]] :=
  (fluid_strtok_tokenizes [44, 59] [44, 59, 97, 98, 44, 99, 100, 59, 59, 101, 44] 0 13
    (by decide) (by decide)).trans (by decide)

/-- C4. Whenever `fluid_strtok` (non-empty delimiter string) returns a token, the token is
non-empty, its first character is the byte the returned pointer addresses and is not a
delimiter character (the bytes skipped before it are all delimiters), and no character of
the token is a delimiter character. -/
theorem fluid_strtok_token_shape (delim buf : List Nat) (v : Option Nat) (tok : Nat)
    (hd : delim.headD 0 ≠ 0)
    (h : (fluid_strtok buf (some v) (some delim)).ret = some tok) :
    1 ≤ (cstr (fluid_strtok buf (some v) (some delim)).buf tok).length ∧
      (cstr (fluid_strtok buf (some v) (some delim)).buf tok).head? = some (buf.getD tok 0) ∧
      buf.getD tok 0 ∉ cstr delim 0 ∧
      (∀ c ∈ cstr (fluid_strtok buf (some v) (some delim)).buf tok, c ∉ cstr delim 0) ∧
      (∀ p, v = some p → p ≤ tok ∧ ∀ j, p ≤ j → j < tok → buf.getD j 0 ∈ cstr delim 0) := by
  obtain ⟨p, hv, hle, hpre, _, hnd, hne, hhead, hall, _⟩ :=
    strtok_token_facts delim buf v tok hd h
  refine ⟨List.length_pos.2 hne, hhead, hnd, fun c hc => (hall c hc).2, ?_⟩
  intro q hq
  rw [hv] at hq
  cases hq
  exact ⟨hle, hpre⟩

/-- Witness for C4: in "a,,b" from offset 1 the call skips ",," and returns "b". -/
theorem fluid_strtok_token_shape_witness :
    (fluid_strtok [97, 44, 44, 98] (some (some 1)) (some [44])).ret = some 3 ∧
      cstr (fluid_strtok [97, 44, 44, 98] (some (some 1)) (some [44])).buf 3 = [98] ∧
      1 ≤ (cstr (fluid_strtok [97, 44, 44, 98] (some (some 1)) (some [44])).buf 3).length :=
  ⟨by decide, by decide,
    (fluid_strtok_token_shape [44] [97, 44, 44, 98] (some 1) 3 (by decide) (by decide)).1⟩

/-- C5, as stated, fails: on "ab," with delimiter "," the first call returns the token "ab"
and the next call returns NULL, so the first call returned the final token, yet it left
`*str` pointing at offset 3 rather than NULL. -/
theorem fluid_strtok_final_token_str_not_null :
    (fluid_strtok [97, 98, 44] (some (some 0)) (some [44])).ret = some 0 ∧
      (fluid_strtok (fluid_strtok [97, 98, 44] (some (some 0)) (some [44])).buf
        (some (fluid_strtok [97, 98, 44] (some (some 0)) (some [44])).str) (some [44])).ret
        = none ∧
      (fluid_strtok [97, 98, 44] (some (some 0)) (some [44])).str = some 3 ∧
      (fluid_strtok [97, 98, 44] (some (some 0)) (some [44])).str ≠ none := by
  decide

/-- C5, amended. The call that returns the final token (the next call returns NULL) leaves
`*str` NULL exactly when the token runs to the end of the source string; when the token is
ended by a delimiter byte it leaves `*str` at the byte after that delimiter; in both cases
`*str` is NULL after the next call. -/
theorem fluid_strtok_final_token_str (delim buf : List Nat) (v : Option Nat) (tok : Nat)
    (hd : delim.headD 0 ≠ 0)
    (h : (fluid_strtok buf (some v) (some delim)).ret = some tok)
    (hlast : (fluid_strtok (fluid_strtok buf (some v) (some delim)).buf
      (some (fluid_strtok buf (some v) (some delim)).str) (some delim)).ret = none) :
    ((fluid_strtok buf (some v) (some delim)).str = none ↔
        buf.getD (tok + (cstr (fluid_strtok buf (some v) (some delim)).buf tok).length) 0 = 0) ∧
      (buf.getD (tok + (cstr (fluid_strtok buf (some v) (some delim)).buf tok).length) 0 ≠ 0 →
        buf.getD (tok + (cstr (fluid_strtok buf (some v) (some delim)).buf tok).length) 0
          ∈ cstr delim 0 ∧
        (fluid_strtok buf (some v) (some delim)).str =
          some (tok + (cstr (fluid_strtok buf (some v) (some delim)).buf tok).length + 1)) ∧
      (fluid_strtok (fluid_strtok buf (some v) (some delim)).buf
        (some (fluid_strtok buf (some v) (some delim)).str) (some delim)).str = none := by
  obtain ⟨p, _, _, _, _, _, _, _, _, hcase⟩ := strtok_token_facts delim buf v tok hd h
  refine ⟨?_, ?_, (strtok_null_facts delim _ _ hd hlast).1⟩
  · rcases hcase with ⟨h0, _, hs⟩ | ⟨h0, _, _, _, hs⟩
    · exact ⟨fun _ => h0, fun _ => hs⟩
    · constructor
      · intro hn; rw [hs] at hn; exact absurd hn (by simp)
      · intro hz; exact absurd hz h0
  · intro hnz
    rcases hcase with ⟨h0, _, _⟩ | ⟨_, hmem, _, _, hs⟩
    · exact absurd h0 hnz
    · exact ⟨hmem, hs⟩

/-- Witness for C5 amended: on "ab," the call returning "ab" is the final one returning a
token, and the call after it leaves `*str` NULL. -/
theorem fluid_strtok_final_token_str_witness :
    (fluid_strtok (fluid_strtok [97, 98, 44] (some (some 0)) (some [44])).buf
      (some (fluid_strtok [97, 98, 44] (some (some 0)) (some [44])).str) (some [44])).str
      = none :=
  (fluid_strtok_final_token_str [44] [97, 98, 44] (some 0) 0 (by decide) (by decide)
    (by decide)).2.2

/-- C6, as stated, fails: on "a,,b" with delimiter "," the first call returns "a" and the
next call returns the token at offset 3, yet after the first call `*str` is offset 2, a
delimiter byte, not the first character of the next token. -/
theorem fluid_strtok_str_not_next_token :
    (fluid_strtok [97, 44, 44, 98] (some (some 0)) (some [44])).ret = some 0 ∧
      (fluid_strtok (fluid_strtok [97, 44, 44, 98] (some (some 0)) (some [44])).buf
        (some (fluid_strtok [97, 44, 44, 98] (some (some 0)) (some [44])).str) (some [44])).ret
        = some 3 ∧
      (fluid_strtok [97, 44, 44, 98] (some (some 0)) (some [44])).str = some 2 ∧
      (fluid_strtok [97, 44, 44, 98] (some (some 0)) (some [44])).str ≠ some 3 := by
  decide

/-- C6, amended. After a call that returns a token and is followed by a call returning
another token, `*str` points to the byte right after the delimiter that ended the first
token; the next token starts at the first byte at or after `*str` that is not a delimiter
character, hence at `*str` itself exactly when that byte is not a delimiter. -/
theorem fluid_strtok_str_before_next_token (delim buf : List Nat) (v : Option Nat)
    (tok tok2 : Nat) (hd : delim.headD 0 ≠ 0)
    (h : (fluid_strtok buf (some v) (some delim)).ret = some tok)
    (hnext : (fluid_strtok (fluid_strtok buf (some v) (some delim)).buf
      (some (fluid_strtok buf (some v) (some delim)).str) (some delim)).ret = some tok2) :
    ∃ q, (fluid_strtok buf (some v) (some delim)).str = some q ∧
      q = tok + (cstr (fluid_strtok buf (some v) (some delim)).buf tok).length + 1 ∧
      q ≤ tok2 ∧
      (∀ j, q ≤ j → j < tok2 →
        (fluid_strtok buf (some v) (some delim)).buf.getD j 0 ∈ cstr delim 0) ∧
      (fluid_strtok buf (some v) (some delim)).buf.getD tok2 0 ≠ 0 ∧
      (fluid_strtok buf (some v) (some delim)).buf.getD tok2 0 ∉ cstr delim 0 ∧
      (tok2 = q ↔ (fluid_strtok buf (some v) (some delim)).buf.getD q 0 ∉ cstr delim 0) := by
  obtain ⟨q, hq, hle, hpre, hnz, hnd, _⟩ := strtok_token_facts delim _ _ tok2 hd hnext
  obtain ⟨p, _, _, _, _, _, _, _, _, hcase⟩ := strtok_token_facts delim buf v tok hd h
  refine ⟨q, hq, ?_, hle, hpre, hnz, hnd, ?_⟩
  · rcases hcase with ⟨_, _, hs⟩ | ⟨_, _, _, _, hs⟩
    · rw [hs] at hq; exact absurd hq (by simp)
    · rw [hs] at hq; exact (Option.some.inj hq).symm
  · constructor
    · intro e; rw [← e]; exact hnd
    · intro hn
      by_contra hne
      exact hn (hpre q (Nat.le_refl q) (by omega))

/-- Witness for C6 amended: on "a,,b" the first call leaves `*str` at offset 2 and the next
token starts at offset 3. -/
theorem fluid_strtok_str_before_next_token_witness :
    ∃ q, (fluid_strtok [97, 44, 44, 98] (some (some 0)) (some [44])).str = some q ∧
      q = 0 + (cstr (fluid_strtok [97, 44, 44, 98] (some (some 0)) (some [44])).buf 0).length
        + 1 ∧
      q ≤ 3 :=
  let ⟨q, h1, h2, h3, _⟩ := fluid_strtok_str_before_next_token [44] [97, 44, 44, 98] (some 0)
    0 3 (by decide) (by decide) (by decide)
  ⟨q, h1, h2, h3⟩

/-- C7. One call of `fluid_strtok` (non-empty delimiter string) changes at most one byte of
the buffer: a call that returns NULL changes nothing; a call that returns a token running
to the end of the string changes nothing and sets `*str` to NULL; a call whose token is
ended by a delimiter overwrites exactly that delimiter byte, the byte right after the
token, with 0 and sets `*str` to the byte after it. -/
theorem fluid_strtok_frame (delim buf : List Nat) (v : Option Nat) (hd : delim.headD 0 ≠ 0) :
    ((fluid_strtok buf (some v) (some delim)).ret = none →
        (fluid_strtok buf (some v) (some delim)).buf = buf) ∧
      (∀ tok, (fluid_strtok buf (some v) (some delim)).ret = some tok →
        (buf.getD (tok + (cstr (fluid_strtok buf (some v) (some delim)).buf tok).length) 0 = 0 →
          (fluid_strtok buf (some v) (some delim)).buf = buf ∧
          (fluid_strtok buf (some v) (some delim)).str = none) ∧
        (buf.getD (tok + (cstr (fluid_strtok buf (some v) (some delim)).buf tok).length) 0 ≠ 0 →
          buf.getD (tok + (cstr (fluid_strtok buf (some v) (some delim)).buf tok).length) 0
            ∈ cstr delim 0 ∧
          (fluid_strtok buf (some v) (some delim)).buf =
            buf.set (tok + (cstr (fluid_strtok buf (some v) (some delim)).buf tok).length) 0 ∧
          (fluid_strtok buf (some v) (some delim)).str =
            some (tok + (cstr (fluid_strtok buf (some v) (some delim)).buf tok).length + 1))) ∧
      (fluid_strtok buf (some v) (some delim)).buf.length = buf.length ∧
      (∀ i j, (fluid_strtok buf (some v) (some delim)).buf.getD i 0 ≠ buf.getD i 0 →
        (fluid_strtok buf (some v) (some delim)).buf.getD j 0 ≠ buf.getD j 0 → i = j) := by
  have hshape : (fluid_strtok buf (some v) (some delim)).buf = buf ∨
      ∃ e, (fluid_strtok buf (some v) (some delim)).buf = buf.set e 0 := by
    cases hr : (fluid_strtok buf (some v) (some delim)).ret with
    | none => exact Or.inl (strtok_null_facts delim buf v hd hr).2
    | some tok =>
      obtain ⟨p, _, _, _, _, _, _, _, _, hcase⟩ := strtok_token_facts delim buf v tok hd hr
      rcases hcase with ⟨_, hb, _⟩ | ⟨_, _, _, hb, _⟩
      · exact Or.inl hb
      · exact Or.inr ⟨_, hb⟩
  refine ⟨fun hr => (strtok_null_facts delim buf v hd hr).2, ?_, ?_, ?_⟩
  · intro tok hr
    obtain ⟨p, _, _, _, _, _, _, _, _, hcase⟩ := strtok_token_facts delim buf v tok hd hr
    rcases hcase with ⟨h0, hb, hs⟩ | ⟨h0, hmem, _, hb, hs⟩
    · exact ⟨fun _ => ⟨hb, hs⟩, fun hn => absurd h0 hn⟩
    · exact ⟨fun hz => absurd hz h0, fun _ => ⟨hmem, hb, hs⟩⟩
  · rcases hshape with hb | ⟨e, hb⟩
    · rw [hb]
    · rw [hb, List.length_set]
  · intro i j hi hj
    rcases hshape with hb | ⟨e, hb⟩
    · rw [hb] at hi; exact absurd rfl hi
    · rw [hb] at hi hj
      rw [getD_set_ne buf e i hi, getD_set_ne buf e j hj]

/-- Witness for C7: on "ab,c" the call returns "ab" and turns the buffer into "ab\0c". -/
theorem fluid_strtok_frame_witness :
    (fluid_strtok [97, 98, 44, 99] (some (some 0)) (some [44])).buf.length = 4 ∧
      (fluid_strtok [97, 98, 44, 99] (some (some 0)) (some [44])).buf = [97, 98, 0, 99] :=
  ⟨(fluid_strtok_frame [44] [97, 98, 44, 99] (some 0) (by decide)).2.2.1, by decide⟩

/-- C8. For a level with `0 ≤ level < LAST_LOG_LEVEL`, `fluid_set_log_function` returns the
handler installed for that level before the call; afterwards the handler of that level is
`fn` and its user data is `data`, so a second call for the same level returns `fn`. -/
theorem fluid_set_log_function_in_range {n : Nat} {F D : Type} (t : LogTables n F D)
    (level : Int) (hl : 0 ≤ level ∧ level < (n : Int)) (fn fn2 : Option F)
    (data data2 : Option D) :
    (fluid_set_log_function t level fn data).1 =
        t.fluid_log_function ⟨level.toNat, by omega⟩ ∧
      (fluid_set_log_function t level fn data).2.fluid_log_function ⟨level.toNat, by omega⟩
        = fn ∧
      (fluid_set_log_function t level fn data).2.fluid_log_user_data ⟨level.toNat, by omega⟩
        = data ∧
      (fluid_set_log_function (fluid_set_log_function t level fn data).2 level fn2 data2).1
        = fn := by
  simp [fluid_set_log_function, hl]

/-- Witness for C8: five levels, level 2, handlers named by numbers. -/
theorem fluid_set_log_function_in_range_witness :
    (fluid_set_log_function (⟨fun _ => some 0, fun _ => none⟩ : LogTables 5 Nat Nat) 2
        (some 7) (some 9)).1 = some 0 ∧
      (fluid_set_log_function (fluid_set_log_function
        (⟨fun _ => some 0, fun _ => none⟩ : LogTables 5 Nat Nat) 2 (some 7) (some 9)).2 2
        none none).1 = some 7 :=
  ⟨(fluid_set_log_function_in_range (⟨fun _ => some 0, fun _ => none⟩ : LogTables 5 Nat Nat) 2
      (by decide) (some 7) none (some 9) none).1,
   (fluid_set_log_function_in_range (⟨fun _ => some 0, fun _ => none⟩ : LogTables 5 Nat Nat) 2
      (by decide) (some 7) none (some 9) none).2.2.2⟩

/-- C9. For a level with `level < 0` or `level ≥ LAST_LOG_LEVEL`, `fluid_set_log_function`
returns NULL and leaves both tables as they were, and `fluid_log` invokes no handler and
leaves both tables as they were. -/
theorem log_level_out_of_range_ignored {n : Nat} {F D M Fmt Args : Type}
    (env : LogEnv n F D M Fmt Args) (w : LogWorld n F D M) (level : Int)
    (hl : level < 0 ∨ (n : Int) ≤ level) (fn : Option F) (data : Option D) (fmt : Fmt)
    (args : Args) :
    fluid_set_log_function w.tables level fn data = (none, w.tables) ∧
      (fluid_log env w level fmt args).2.invoked = w.invoked ∧
      (fluid_log env w level fmt args).2.tables = w.tables := by
  have h : ¬ (0 ≤ level ∧ level < (n : Int)) := by omega
  simp [fluid_set_log_function, fluid_log, h]

/-- Witness for C9: five levels, level 5, every handler installed. -/
theorem log_level_out_of_range_ignored_witness :
    (fluid_log (⟨-1, fun _ _ _ => (), fun _ w => w⟩ : LogEnv 5 Nat Nat Unit Unit Unit)
        ⟨⟨fun _ => some 0, fun _ => none⟩, []⟩ 5 () ()).2.invoked = [] :=
  (log_level_out_of_range_ignored
    (⟨-1, fun _ _ _ => (), fun _ w => w⟩ : LogEnv 5 Nat Nat Unit Unit Unit)
    ⟨⟨fun _ => some 0, fun _ => none⟩, []⟩ 5 (by decide) (some 3) none () ()).2.1

end FluidSys
